import Mathlib

/-
  Verification of the pl-order-blocks element
  (src/apps/prairielearn/elements/pl-order-blocks/pl-order-blocks.py).

  The element's grading core is embedded shallowly below.  Python dicts are
  embedded as association lists with Python's insert/overwrite semantics
  (`dinsert`, `dget`); the in-place mutation that the indentation gate performs
  on the submitted answer dicts is made explicit by returning the gated
  submission alongside the score.  The helper module `dag_checker`
  (grade_dag, lcs_partial_credit, solve_dag) is imported by the source file but
  is not part of this repository snapshot; its three functions are modelled
  from the specification (sections 4.3, 4.4, 4.5) and are marked as such.
  Python floats are embedded as rationals; `round(x, 2)` is embedded as exact
  rational rounding (half-to-even, like Python's round).
-/

set_option maxHeartbeats 1000000
set_option maxRecDepth 20000

deriving instance DecidableEq for Except

namespace OrderBlocks

/-- Grading methods (enum GradingMethodType in the source). -/
inductive GradingMethodType
  | UNORDERED
  | ORDERED
  | RANKING
  | DAG
  | EXTERNAL
deriving DecidableEq

/-- Feedback policies (enum FeedbackType in the source). -/
inductive FeedbackType
  | NONE
  | FIRST_WRONG
deriving DecidableEq

/-- Partial-credit policies (enum PartialCreditType in the source). -/
inductive PartialCreditType
  | NONE
  | LCS
deriving DecidableEq

/-- One correct/incorrect answer block as stored by `prepare`
(OrderBlocksAnswerData in the source).  The purely cosmetic fields
`index` and `distractor_bin` (display ordering / visual pairing) are omitted:
no grading path reads them. -/
structure AnswerData where
  inner_html : String
  indent : Option Int
  ranking : Int
  tag : String
  distractorFor : Option String
  depends : List String
  groupTag : Option String
  groupDepends : Option (List String)
  uuid : String
deriving DecidableEq

/-- One submitted block as seen by `grade`.  `tagKey = none` means the dict has
no `tag` key at all (UNORDERED/ORDERED parses); `tagKey = some none` means the
key is present with value `None` (unmatched content, or nulled by the
indentation gate).  `inner_html = none` means the content was nulled by the
indentation gate. -/
structure SubEntry where
  inner_html : Option String
  indent : Option Int
  tagKey : Option (Option String)
  uuid : String
deriving DecidableEq

/-- Python dict lookup on an association list. -/
def dget {α : Type} (d : List (String × α)) (k : String) : Option α :=
  (d.find? (fun p => p.1 = k)).map (·.2)

/-- Python dict insertion: overwrite in place if the key exists (keeping its
position, as Python dicts do), else append. -/
def dinsert {α : Type} (d : List (String × α)) (k : String) (v : α) :
    List (String × α) :=
  if (d.find? (fun p => p.1 = k)).isSome then
    d.map (fun p => if p.1 = k then (k, v) else p)
  else d ++ [(k, v)]

/-- Python dict key iteration order. -/
def dkeys {α : Type} (d : List (String × α)) : List String := d.map (·.1)

/-- The feedback strings of FIRST_WRONG_FEEDBACK in the source. -/
def incompleteFeedback : String :=
  "Your answer is correct so far, but it is incomplete."

/-- The "wrong-at-block" feedback string, with `.format(str n)` applied. -/
def wrongAtBlockFeedback (n : Nat) : String :=
  "Your answer is incorrect starting at <span style=\"color:red;\">block number "
    ++ toString n ++ "</span>.\n        The problem is most likely one of the following:\n        <ul><li> This block is not a part of the correct solution </li>\n        <li>This block needs to come after a block that did not appear before it </li>"

/-- The "indentation" feedback fragment. -/
def indentationFeedback : String := "<li>This line is indented incorrectly </li>"

/-- The "block-group" feedback fragment. -/
def blockGroupFeedback : String :=
  "<li> You have attempted to start a new section of the answer without finishing the previous section </li>"

/-- Exact embedding of Python's `round(x, 2)` on rationals: round half to even
at the second decimal place. -/
def roundHalfEven (q : ℚ) : ℤ :=
  let f : ℤ := Int.fdiv q.num (q.den : ℤ)
  if q - (f : ℚ) < 1/2 then f
  else if q - (f : ℚ) > 1/2 then f + 1
  else if f % 2 = 0 then f else f + 1

/-- Round a rational to two decimal places (Python `round(x, 2)`). -/
def roundTo2 (q : ℚ) : ℚ := (roundHalfEven (q * 100) : ℚ) / 100

/-- The `data["partial_scores"][answer_name]` record written by `grade`. -/
structure ScoreData where
  score : ℚ
  feedback : String
  weight : Int
deriving DecidableEq

/-- Everything observable about one `grade` call: the submitted-answer list
after the (mutating) indentation gate, the pre-rounding final score, the
feedback string, the first-wrong index of the RANKING/DAG branch, and the
stored score record. -/
structure GradeOutcome where
  gatedSubmission : List SubEntry
  finalScore : ℚ
  feedback : String
  firstWrong : Option Nat
  result : ScoreData
deriving DecidableEq

/-- The `indentations` dict built by the indentation gate
(`{ans["uuid"]: ans["indent"] for ans in true_answer_list}`). -/
def indentationsDict (trueAnswerList : List AnswerData) :
    List (String × Option Int) :=
  trueAnswerList.foldl (fun d a => dinsert d a.uuid a.indent) []

/-- The indentation gate applied to a single submitted block (source lines
704-710).  Python's `indentations.get(uuid)` returns `None` both for a missing
key and for a stored `None`, hence the `Option.join`. -/
def indentGateEntry (indentations : List (String × Option Int))
    (ans : SubEntry) : SubEntry :=
  let indentation : Option Int := (dget indentations ans.uuid).join
  if indentation ≠ some (-1) ∧ ans.indent ≠ indentation then
    match ans.tagKey with
    | some _ => { ans with tagKey := some none }
    | none => { ans with inner_html := none }
  else ans

/-- All group tags appearing as values of the `group_belonging` dict. -/
def groupTagsOf (B : List (String × Option String)) : List String :=
  B.filterMap (·.2)

/-- Modelled from the spec (§4.4): the fragment tags of the correct set are the
dependency-graph keys that are not group tags; their number is the
`true_answer_length` denominator returned by the missing `grade_dag`. -/
def fragmentTags (G : List (String × List String))
    (B : List (String × Option String)) : List String :=
  (dkeys G).filter (fun t => decide (t ∉ groupTagsOf B))

/-- The fragment tags belonging to a given group. -/
def membersOf (B : List (String × Option String)) (g : String) : List String :=
  B.filterMap (fun p => if p.2 = some g then some p.1 else none)

/-- Modelled from the spec (§4.4): a dependency is satisfied when it is an
already-placed fragment tag, or a group all of whose member fragments are
already placed. -/
def depSatisfied (B : List (String × Option String))
    (satisfied : List String) (d : String) : Bool :=
  if d ∈ groupTagsOf B then
    (membersOf B d).all (fun x => decide (x ∈ satisfied))
  else decide (d ∈ satisfied)

/-- Walker state of the modelled `grade_dag`: the set of fragment tags placed
so far and the currently open (not yet fully consumed) group, if any. -/
structure DagState where
  satisfied : List String
  curGroup : Option String
deriving DecidableEq

/-- Initial walker state. -/
def initState : DagState := ⟨[], none⟩

/-- Modelled from the spec (§4.4): effective dependencies of a fragment are its
own `depends` plus, if it belongs to a group, the group's `depends`. -/
def effectiveDeps (G : List (String × List String))
    (B : List (String × Option String)) (t : String) : List String :=
  ((dget G t).getD []) ++
    (match (dget B t).join with
     | some g => (dget G g).getD []
     | none => [])

/-- Modelled from the spec (§4.4): a submitted tag is valid at the current
position iff it is non-null, is a not-yet-placed fragment tag, all its
effective dependencies are satisfied, and group contiguity holds (an open
group must be continued). -/
def stepValid (G : List (String × List String))
    (B : List (String × Option String)) (st : DagState)
    (t : Option String) : Bool :=
  match t with
  | none => false
  | some tag =>
    decide (tag ∈ fragmentTags G B) &&
    !(decide (tag ∈ st.satisfied)) &&
    (effectiveDeps G B tag).all (depSatisfied B st.satisfied) &&
    (match st.curGroup with
     | none => true
     | some g => decide ((dget B tag).join = some g))

/-- State update after a valid placement: record the tag; the placed tag's
group stays open until all its members are placed. -/
def stepUpdate (B : List (String × Option String)) (st : DagState)
    (tag : String) : DagState :=
  let satisfied2 := tag :: st.satisfied
  { satisfied := satisfied2,
    curGroup :=
      match (dget B tag).join with
      | none => none
      | some g =>
        if (membersOf B g).all (fun x => decide (x ∈ satisfied2)) then none
        else some g }

/-- Modelled from the spec (§4.4): count of leading valid positions of a
submission (the walk stops at the first invalid position). -/
def gradeDagGo (G : List (String × List String))
    (B : List (String × Option String)) :
    DagState → List (Option String) → Nat
  | _, [] => 0
  | _, none :: _ => 0
  | st, some tag :: rest =>
    if stepValid G B st (some tag) then
      1 + gradeDagGo G B (stepUpdate B st tag) rest
    else 0

/-- Modelled from the spec (§4.4): `grade_dag` returns the number of initially
correct positions together with the true answer length. -/
def gradeDag (sub : List (Option String)) (G : List (String × List String))
    (B : List (String × Option String)) : Nat × Nat :=
  (gradeDagGo G B initState sub, (fragmentTags G B).length)

/-- Longest common subsequence length between a submission (null entries never
match) and a tag sequence. -/
def lcsLenO : List (Option String) → List String → Nat
  | [], _ => 0
  | _ :: _, [] => 0
  | a :: as, b :: bs =>
    if a = some b then 1 + lcsLenO as bs
    else max (lcsLenO (a :: as) bs) (lcsLenO as (b :: bs))
termination_by l1 l2 => l1.length + l2.length

/-- Insert/delete edit distance from a submission to a tag sequence, via the
standard LCS identity (spec §4.5). -/
def editDist (sub : List (Option String)) (sigma : List String) : Nat :=
  sub.length + sigma.length - 2 * lcsLenO sub sigma

/-- All valid linearizations of the graph: permutations of the fragment tags
that the prefix walker validates in full. -/
def validOrders (G : List (String × List String))
    (B : List (String × Option String)) : List (List String) :=
  (fragmentTags G B).permutations.filter
    (fun sigma => decide (gradeDagGo G B initState (sigma.map some) = sigma.length))

/-- Modelled from the spec (§4.5): the missing `lcs_partial_credit` returns the
minimum number of insertions and deletions needed to transform the submission
into some valid topological order of the graph.  (When no valid order exists
the fold's base value, an upper bound of every edit distance, is returned;
no claim depends on that case.) -/
def lcsPartialCredit (sub : List (Option String))
    (G : List (String × List String))
    (B : List (String × Option String)) : Nat :=
  (validOrders G B).foldl (fun m sigma => min m (editDist sub sigma))
    (sub.length + (fragmentTags G B).length)

/-- `extract_dag` from the source (lines 103-115): fragment entries keyed by
tag, group-membership map, and group `depends` entries merged in. -/
def extractDag (answersList : List AnswerData) :
    List (String × List String) × List (String × Option String) :=
  let dependsGraph := answersList.foldl (fun d a => dinsert d a.tag a.depends) []
  let groupBelonging :=
    answersList.foldl (fun d a => dinsert d a.tag a.groupTag) []
  let groupDepends :=
    (answersList.filter (fun a => a.groupDepends.isSome && a.groupTag.isSome)).foldl
      (fun d a => dinsert d (a.groupTag.getD "") (a.groupDepends.getD [])) []
  (groupDepends.foldl (fun d p => dinsert d p.1 p.2) dependsGraph, groupBelonging)

/-- Python's stable `sorted(answers, key=lambda x: int(x["ranking"]))`. -/
def rankSorted (l : List AnswerData) : List AnswerData :=
  l.mergeSort (fun a b => decide (a.ranking ≤ b.ranking))

/-- The ranking-graph loop of `grade` (source lines 744-751), written as an
explicit recursion over the rank-sorted tag list.  The dict lookup
`tag_to_rank[tag]` cannot fail because every iterated tag is a key; the
`getD 0` default is therefore dead. -/
def rankLoopGo (tagToRank : List (String × Int))
    (linesOfRank : Int → List String) :
    List (String × List String) → List String → Option Int → List String →
      List (String × List String)
  | g, _, _, [] => g
  | g, cur, prevRank, t :: rest =>
    let ranking := (dget tagToRank t).getD 0
    let cur2 :=
      match prevRank with
      | some pr => if ranking ≠ pr then linesOfRank pr else cur
      | none => cur
    rankLoopGo tagToRank linesOfRank (dinsert g t cur2) cur2 (some ranking) rest

/-- The dependency graph that `grade` builds for RANKING (source lines
733-751), from the already rank-sorted true-answer list. -/
def buildRankingGraph (trueSorted : List AnswerData) :
    List (String × List String) :=
  let tagToRank := trueSorted.foldl (fun d a => dinsert d a.tag a.ranking) []
  let linesOfRank := fun (r : Int) =>
    (dkeys tagToRank).filter (fun t => decide (dget tagToRank t = some r))
  rankLoopGo tagToRank linesOfRank [] [] none (trueSorted.map (·.tag))

/-- The element configuration relevant to grading, with every attribute
already resolved to its value (defaults applied by the attribute layer). -/
structure GradeConfig where
  gradingMethod : GradingMethodType
  checkIndentation : Bool
  feedbackType : FeedbackType
  answerWeight : Int
  partialCredit : PartialCreditType
deriving DecidableEq

/-- The UNORDERED score (source lines 712-721) as a function of the uuid
sequences of the true-answer list and of the (gated) submission: the set
intersection count minus the count of remaining submitted entries, over the
true-answer count, clamped at 0. -/
def unorderedScore (trueUuidList su : List String) : ℚ :=
  let trueUuids := trueUuidList.toFinset
  let studentUuids := su.toFinset
  let correctSelections : ℚ := ((trueUuids ∩ studentUuids).card : ℚ)
  let incorrectSelections : ℚ := (su.length : ℚ) - correctSelections
  max 0 ((correctSelections - incorrectSelections) / (trueUuidList.length : ℚ))

/-- The dependency graph and group-belonging map `grade` uses for a grading
method (empty for the other methods). -/
def graphOf : GradingMethodType → List AnswerData →
    List (String × List String) × List (String × Option String)
  | GradingMethodType.RANKING, l => (buildRankingGraph (rankSorted l), [])
  | GradingMethodType.DAG, l => extractDag l
  | _, _ => ([], [])

/-- The submitted answer list after the indentation gate (source lines
702-710); the gate runs only when indentation checking is enabled. -/
def gatedStudent (cfg : GradeConfig) (studentAnswer : List SubEntry)
    (trueAnswerList : List AnswerData) : List SubEntry :=
  if cfg.checkIndentation then
    studentAnswer.map (indentGateEntry (indentationsDict trueAnswerList))
  else studentAnswer

/-- Feedback assembly of the RANKING/DAG branch (source lines 776-793),
reached only when the final score is below 1. -/
def feedbackFor (cfg : GradeConfig) (B : List (String × Option String))
    (firstWrong : Option Nat) : String :=
  match cfg.feedbackType with
  | FeedbackType.NONE => ""
  | FeedbackType.FIRST_WRONG =>
    match firstWrong with
    | none => incompleteFeedback
    | some fw =>
      let base := wrongAtBlockFeedback (fw + 1)
      let hasBlockGroups := !B.isEmpty && B.any (fun p => p.2.isSome)
      let base2 := base ++ (if cfg.checkIndentation then indentationFeedback else "")
      let base3 := base2 ++ (if hasBlockGroups then blockGroupFeedback else "")
      base3 ++ "</ul>"

/-- The RANKING/DAG branch of `grade` (source lines 728-793).  Reading
`ans["tag"]` from a dict without that key is a Python `KeyError`, embedded as
`Except.error`; so is the division by a zero `true_answer_length`. -/
def gradeDagBranch (cfg : GradeConfig) (studentAnswer : List SubEntry)
    (gb : List (String × List String) × List (String × Option String)) :
    Except String GradeOutcome :=
  match studentAnswer.mapM (·.tagKey) with
  | none => Except.error "KeyError: tag"
  | some submission =>
    let nic := (gradeDag submission gb.1 gb.2).1
    let L := (gradeDag submission gb.1 gb.2).2
    let firstWrong : Option Nat :=
      if nic = submission.length then none else some nic
    let scoreE : Except String ℚ :=
      match cfg.partialCredit with
      | PartialCreditType.NONE =>
        -- 1 when the count reaches the full length, 0 when below it
        -- (and the initial 0 is kept in the unreachable remaining case).
        Except.ok (if nic = L then (1 : ℚ) else 0)
      | PartialCreditType.LCS =>
        if L = 0 then Except.error "ZeroDivisionError"
        else
          Except.ok (max 0 (((L : ℚ) - (lcsPartialCredit submission gb.1 gb.2 : ℚ)) / (L : ℚ)))
    scoreE.map (fun finalScore =>
      let feedback :=
        if finalScore < 1 then feedbackFor cfg gb.2 firstWrong else ""
      ⟨studentAnswer, finalScore, feedback, firstWrong,
        ⟨roundTo2 finalScore, feedback, cfg.answerWeight⟩⟩)

/-- The `grade` entry point (source lines 679-799).  The returned outcome
carries the gated submission (the in-place mutation the gate performs on
`data["submitted_answers"]`) and the stored partial-score record. -/
def grade (cfg : GradeConfig) (studentAnswer0 : List SubEntry)
    (trueAnswerList : List AnswerData) : Except String GradeOutcome :=
  let studentAnswer := gatedStudent cfg studentAnswer0 trueAnswerList
  match cfg.gradingMethod with
  | GradingMethodType.UNORDERED =>
    if trueAnswerList.length = 0 then Except.error "ZeroDivisionError"
    else
      let finalScore : ℚ :=
        unorderedScore (trueAnswerList.map (·.uuid)) (studentAnswer.map (·.uuid))
      Except.ok ⟨studentAnswer, finalScore, "", none,
        ⟨roundTo2 finalScore, "", cfg.answerWeight⟩⟩
  | GradingMethodType.ORDERED =>
    let s : List (Option String) := studentAnswer.map (·.inner_html)
    let t : List (Option String) := trueAnswerList.map (fun a => some a.inner_html)
    let finalScore : ℚ := if s = t then 1 else 0
    Except.ok ⟨studentAnswer, finalScore, "", none,
      ⟨roundTo2 finalScore, "", cfg.answerWeight⟩⟩
  | GradingMethodType.RANKING =>
    gradeDagBranch cfg studentAnswer (graphOf GradingMethodType.RANKING trueAnswerList)
  | GradingMethodType.DAG =>
    gradeDagBranch cfg studentAnswer (graphOf GradingMethodType.DAG trueAnswerList)
  | GradingMethodType.EXTERNAL =>
    -- no dispatch branch runs: the initial final_score = 0 and empty feedback
    -- are stored as the score record.
    Except.ok ⟨studentAnswer, 0, "", none, ⟨roundTo2 0, "", cfg.answerWeight⟩⟩

/-- A stored answer dict viewed as a submitted dict, as in `prepare`'s
self-check, which submits `correct_answers` directly: the `tag` key is
present, `inner_html` is a string and indent/uuid are carried over. -/
def toSubEntry (a : AnswerData) : SubEntry :=
  ⟨some a.inner_html, a.indent, some (some a.tag), a.uuid⟩

/-- Modelled from the spec (§4.3): the missing `solve_dag` produces one
concrete valid order by repeatedly emitting the first remaining tag (in
declaration order) that the prefix walker accepts, and fails (a graph error)
when no tag can be emitted.  The fuel equals the number of tags, enough for
one placement per step. -/
def solveDagGo (G : List (String × List String))
    (B : List (String × Option String)) :
    Nat → DagState → List String → List String → Option (List String)
  | _, _, acc, [] => some acc.reverse
  | 0, _, _, _ :: _ => none
  | fuel + 1, st, acc, r :: rs =>
    match (r :: rs).find? (fun t => stepValid G B st (some t)) with
    | none => none
    | some t =>
      solveDagGo G B fuel (stepUpdate B st t) (t :: acc) ((r :: rs).erase t)

/-- Modelled from the spec (§4.3): one valid topological order of all fragment
tags, or failure when none exists. -/
def solveDag (G : List (String × List String))
    (B : List (String × Option String)) : Option (List String) :=
  solveDagGo G B (fragmentTags G B).length initState [] (fragmentTags G B)

/-- `solve_problem` from the source (lines 118-134).  For DAG, Python's
`solution.index(x["tag"])` raises when a tag is missing from the solution, and
`solve_dag` raises on an unsolvable graph; both are `Except.error`. -/
def solveProblem (answersList : List AnswerData) (gm : GradingMethodType) :
    Except String (List AnswerData) :=
  match gm with
  | GradingMethodType.EXTERNAL => Except.ok answersList
  | GradingMethodType.UNORDERED => Except.ok answersList
  | GradingMethodType.ORDERED => Except.ok answersList
  | GradingMethodType.RANKING => Except.ok (rankSorted answersList)
  | GradingMethodType.DAG =>
    let gb := extractDag answersList
    match solveDag gb.1 gb.2 with
    | none => Except.error "solve_dag: no valid topological order"
    | some solution =>
      if answersList.all (fun a => decide (a.tag ∈ solution)) then
        Except.ok (answersList.mergeSort
          (fun a b => decide (solution.indexOf a.tag ≤ solution.indexOf b.tag)))
      else Except.error "ValueError: tag is not in list"

/-- One `<pl-answer>` as the markup layer hands it to `prepare`: attributes
already parsed, with the tag defaulted to a fresh uuid when absent
(get_graph_info) and the correctness flag defaulted to true. -/
structure RawAnswer where
  isCorrect : Bool
  indentAttr : Option Int
  innerHtml : String
  rankingAttr : Int
  distractorFor : Option String
  tagAttr : String
  dependsAttr : List String
  uuid : String
deriving DecidableEq

/-- One child of the `<pl-order-blocks>` element: a bare answer or a
`<pl-block-group>` with its own tag, depends and nested answers. -/
inductive PrepChild
  | answer (a : RawAnswer)
  | blockGroup (gtag : String) (gdepends : List String)
      (answers : List RawAnswer)
deriving DecidableEq

/-- Accumulator of `prepare`: the mutable `used_tags` set together with the
correct/incorrect answer lists. -/
structure PrepState where
  usedTags : List String
  correctAnswers : List AnswerData
  incorrectAnswers : List AnswerData
deriving DecidableEq

/-- The `answer_data_dict` built by `prepare_tag` (source lines 282-292). -/
def toAnswerData (groupInfo : Option String × Option (List String))
    (a : RawAnswer) : AnswerData :=
  ⟨a.innerHtml, a.indentAttr, a.rankingAttr, a.tagAttr, a.distractorFor,
    a.dependsAttr, groupInfo.1, groupInfo.2, a.uuid⟩

/-- The body of `prepare_tag` (source lines 202-296), minus the markup-level
attribute checks (`pl.check_attribs`), which belong to the out-of-scope
parsing layer. -/
def prepareTag (cfg : GradeConfig) (groupInfo : Option String × Option (List String))
    (st : PrepState) (a : RawAnswer) : Except String PrepState :=
  if a.distractorFor.isSome && a.isCorrect then
    Except.error "The distractor-for attribute may only be used on blocks with correct=false."
  else if a.isCorrect && decide (a.tagAttr ∈ st.usedTags) then
    Except.error "Tag used in multiple places."
  else if !cfg.checkIndentation && a.indentAttr.isSome then
    Except.error "pl-answer should not specify indentation if indentation is disabled."
  else
    let used2 := if a.isCorrect then st.usedTags ++ [a.tagAttr] else st.usedTags
    let d : AnswerData := toAnswerData groupInfo a
    if a.isCorrect then
      Except.ok ⟨used2, st.correctAnswers ++ [d], st.incorrectAnswers⟩
    else
      Except.ok ⟨used2, st.correctAnswers, st.incorrectAnswers ++ [d]⟩

/-- Processing of one child of the element (source lines 299-326). -/
def prepareChild (cfg : GradeConfig) (st : PrepState) :
    PrepChild → Except String PrepState
  | PrepChild.answer a => prepareTag cfg (none, none) st a
  | PrepChild.blockGroup gtag gdepends answers =>
    if cfg.gradingMethod ≠ GradingMethodType.DAG then
      Except.error "Block groups only supported in the dag grading mode."
    else if gtag ∈ st.usedTags then
      Except.error "Tag used in multiple places."
    else
      answers.foldlM (prepareTag cfg (some gtag, some gdepends))
        ⟨st.usedTags ++ [gtag], st.correctAnswers, st.incorrectAnswers⟩

/-- The grading-relevant core of `prepare` (source lines 137-414), returning
the stored `data["correct_answers"]` list.  The embedding takes the default
`min-incorrect`/`max-incorrect` path, under which every incorrect answer is
kept, and omits the source-block display ordering and `distractor_bin`
assignment, which only shape `data["params"]` and are read by no grading
path.  The final self-check grades the declared correct list against itself
and replaces it with `solve_problem`'s order when the stored (rounded) score
is not 1 (source lines 405-414). -/
def prepareCore (cfg : GradeConfig) (children : List PrepChild) :
    Except String (List AnswerData) := do
  let st ← children.foldlM (prepareChild cfg) ⟨[], [], []⟩
  if cfg.gradingMethod ≠ GradingMethodType.EXTERNAL ∧ st.correctAnswers = [] then
    throw "There are no correct answers specified for this question."
  else
    let allBlocks := st.correctAnswers ++ st.incorrectAnswers
    let correctTags := allBlocks.map (·.tag)
    let incorrectTags : List String := allBlocks.filterMap (fun b =>
      match b.distractorFor with
      | some d => if d = "" then none else some d
      | none => none)
    if ¬ (∀ d ∈ incorrectTags, d ∈ correctTags) then
      throw "The following distractor-for tags do not have matching correct answer tags"
    else
      let selfCheck ← grade cfg (st.correctAnswers.map toSubEntry) st.correctAnswers
      if selfCheck.result.score ≠ 1 then
        solveProblem st.correctAnswers cfg.gradingMethod
      else
        pure st.correctAnswers

/-- The tag occurrences that `prepare` adds to its `used_tags` accumulator for
one child, in processing order: the group tag (for a block group) followed by
the tags of the correct answers inside. -/
def rawCorrectTags : PrepChild → List String
  | PrepChild.answer a => if a.isCorrect then [a.tagAttr] else []
  | PrepChild.blockGroup gtag _ answers =>
    gtag :: answers.filterMap
      (fun a => if a.isCorrect then some a.tagAttr else none)

/-- The raw answers contained in one child of the element. -/
def childAnswers : PrepChild → List RawAnswer
  | PrepChild.answer a => [a]
  | PrepChild.blockGroup _ _ answers => answers

/-- The group info a child passes to `prepare_tag` for its answers. -/
def childGroupInfo : PrepChild → Option String × Option (List String)
  | PrepChild.answer _ => (none, none)
  | PrepChild.blockGroup gtag gdepends _ => (some gtag, some gdepends)

/-- The correct-answer records one child contributes, in order. -/
def childCorrectADs (c : PrepChild) : List AnswerData :=
  (childAnswers c).filterMap
    (fun a => if a.isCorrect then some (toAnswerData (childGroupInfo c) a) else none)

/-- The incorrect-answer records one child contributes, in order. -/
def childIncorrectADs (c : PrepChild) : List AnswerData :=
  (childAnswers c).filterMap
    (fun a => if a.isCorrect then none else some (toAnswerData (childGroupInfo c) a))

/-- Transposition of the two adjacent elements at positions i and i+1
(identity when i+1 is out of range); used to state the ORDERED
transposition property. -/
def swapAdj {α : Type} : List α → Nat → List α
  | x :: y :: rest, 0 => y :: x :: rest
  | x :: rest, n + 1 => x :: swapAdj rest n
  | l, _ => l

/-- Stated from the spec's words (§4.2): `rb` is the previous distinct rank
value before `ra` when the fragments of `l` are listed in ascending rank
order, i.e. the greatest rank value below `ra` occurring in `l`. -/
def isPrevDistinctRank (l : List AnswerData) (rb ra : Int) : Prop :=
  rb < ra ∧ (∃ b ∈ l, b.ranking = rb) ∧ ∀ c ∈ l, c.ranking < ra → c.ranking ≤ rb

/-- The group-`depends` dictionary that `extract_dag` merges into the
dependency graph (third fold of source lines 103-115), as a standalone
definition. -/
def groupDependsDict (l : List AnswerData) : List (String × List String) :=
  (l.filter (fun a => a.groupDepends.isSome && a.groupTag.isSome)).foldl
    (fun d a => dinsert d (a.groupTag.getD "") (a.groupDepends.getD [])) []

/-- The group `depends` value attached to a group tag, read off the first
answer declaring it; under prepare's invariant all members of a group carry
the same value, so this is the common value. -/
def gdepOf (l : List AnswerData) (gt : String) : List String :=
  ((l.find? (fun b => decide (b.groupTag = some gt) && b.groupDepends.isSome)).bind
    (fun b => b.groupDepends)).getD []

/-- The structural invariant `prepare`'s accumulator maintains: `used_tags`
holds no duplicates, every correct answer's tag and group tag is a used tag,
correct tags are pairwise distinct, no group tag collides with a correct
fragment tag, and all members of one group share its `depends`. -/
def PrepInv (st : PrepState) : Prop :=
  st.usedTags.Nodup ∧
  (∀ ad ∈ st.correctAnswers, ad.tag ∈ st.usedTags) ∧
  (st.correctAnswers.map (·.tag)).Nodup ∧
  (∀ ad ∈ st.correctAnswers, ∀ gt, ad.groupTag = some gt → gt ∈ st.usedTags) ∧
  (∀ ad ∈ st.correctAnswers, ∀ gt, ad.groupTag = some gt →
    gt ∉ st.correctAnswers.map (·.tag)) ∧
  (∀ a1 ∈ st.correctAnswers, ∀ a2 ∈ st.correctAnswers,
    a1.groupTag.isSome = true → a1.groupTag = a2.groupTag →
    a1.groupDepends = a2.groupDepends)

/-- The additional facts holding while a `<pl-block-group>` is being
processed: its tag is used, is no fragment tag, and every already-collected
member of the group carries its `depends`. -/
def GroupInv (gtag : String) (gdeps : List String) (st : PrepState) : Prop :=
  gtag ∈ st.usedTags ∧
  gtag ∉ st.correctAnswers.map (·.tag) ∧
  ∀ ad ∈ st.correctAnswers, ad.groupTag = some gtag →
    ad.groupDepends = some gdeps

lemma indentGateEntry_uuid (d : List (String × Option Int)) (a : SubEntry) :
    (indentGateEntry d a).uuid = a.uuid := by
  unfold indentGateEntry
  dsimp only
  split
  · split <;> rfl
  · rfl

lemma indentGateEntry_indent (d : List (String × Option Int)) (a : SubEntry) :
    (indentGateEntry d a).indent = a.indent := by
  unfold indentGateEntry
  dsimp only
  split
  · split <;> rfl
  · rfl

lemma indentGateEntry_cases (d : List (String × Option Int)) (a : SubEntry) :
    indentGateEntry d a = a ∨
    indentGateEntry d a = { a with tagKey := some none } ∨
    indentGateEntry d a = { a with inner_html := none } := by
  unfold indentGateEntry
  dsimp only
  split
  · split
    · right; left; rfl
    · right; right; rfl
  · left; rfl

lemma gatedStudent_uuid_map (cfg : GradeConfig) (s : List SubEntry)
    (t : List AnswerData) :
    (gatedStudent cfg s t).map (·.uuid) = s.map (·.uuid) := by
  unfold gatedStudent
  split
  · simp [Function.comp_def, indentGateEntry_uuid]
  · rfl

lemma gatedStudent_length (cfg : GradeConfig) (s : List SubEntry)
    (t : List AnswerData) :
    (gatedStudent cfg s t).length = s.length := by
  unfold gatedStudent
  split <;> simp

lemma exceptMap_ok {ε α β : Type} {f : α → β} {e : Except ε α} {b : β}
    (h : e.map f = Except.ok b) : ∃ a, e = Except.ok a ∧ b = f a := by
  cases e with
  | error msg => exact absurd h (by simp [Except.map])
  | ok a =>
    refine ⟨a, rfl, ?_⟩
    simpa [Except.map, eq_comm] using h

lemma grade_gatedSubmission (cfg : GradeConfig) (s : List SubEntry)
    (t : List AnswerData) (out : GradeOutcome)
    (h : grade cfg s t = Except.ok out) :
    out.gatedSubmission = gatedStudent cfg s t ∧
    out.result = ⟨roundTo2 out.finalScore, out.feedback, cfg.answerWeight⟩ := by
  cases hm : cfg.gradingMethod <;> simp only [grade, hm] at h
  case UNORDERED =>
    split at h
    · exact absurd h (by simp)
    · obtain rfl := (Except.ok.injEq _ _).mp h; exact ⟨rfl, rfl⟩
  case ORDERED =>
    obtain rfl := (Except.ok.injEq _ _).mp h; exact ⟨rfl, rfl⟩
  case EXTERNAL =>
    obtain rfl := (Except.ok.injEq _ _).mp h; exact ⟨rfl, rfl⟩
  all_goals
    unfold gradeDagBranch at h
    cases hsub : (gatedStudent cfg s t).mapM (·.tagKey) <;> rw [hsub] at h
    · exact absurd h (by simp)
    · dsimp only at h
      obtain ⟨fs, hE, rfl⟩ := exceptMap_ok h
      exact ⟨rfl, rfl⟩

/-- C8 amended, supporting lemma: the gated submission is an elementwise map
of the input submission, so every change is the per-entry gate effect. -/
lemma gatedStudent_eq_map (cfg : GradeConfig) (s : List SubEntry)
    (t : List AnswerData) :
    gatedStudent cfg s t = s.map (fun e =>
      if cfg.checkIndentation then indentGateEntry (indentationsDict t) e else e) := by
  unfold gatedStudent
  by_cases hc : cfg.checkIndentation <;> simp [hc]

/-- C8, counterexample: grading is not read-only with respect to the submitted
answer sequence.  With indentation checking enabled and one submitted block
whose indent (0) differs from the recorded indent (1), the grade call returns
the submitted list with that block's content nulled — the in-place mutation
the source performs on `data["submitted_answers"]` — so the submitted
sequence after the call differs from the one passed in. -/
theorem c8_counterexample :
    (grade ⟨GradingMethodType.ORDERED, true, FeedbackType.NONE, 1, PartialCreditType.LCS⟩
        [⟨some "x", some 0, none, "w1"⟩]
        [⟨"x", some 1, -1, "t1", none, [], none, none, "w1"⟩]).map
      (fun o => o.gatedSubmission) ≠
    Except.ok [⟨some "x", some 0, none, "w1"⟩] := by
  with_unfolding_all decide

/-- C8 amended: a successful grade call leaves the stored correct-answer list
and graph inputs untouched and changes the submitted sequence only through the
indentation gate, which is an elementwise map preserving uuid and indent and
either leaving an entry unchanged or nulling its tag (or its content when it
has no tag key); with indentation checking off the submission is unchanged;
the only state written is the fresh per-call score record
(score, feedback, weight). -/
theorem c8_amended (cfg : GradeConfig) (s : List SubEntry) (t : List AnswerData)
    (out : GradeOutcome) (h : grade cfg s t = Except.ok out) :
    out.gatedSubmission = s.map (fun e =>
      if cfg.checkIndentation then indentGateEntry (indentationsDict t) e else e) ∧
    (∀ e : SubEntry,
      (indentGateEntry (indentationsDict t) e).uuid = e.uuid ∧
      (indentGateEntry (indentationsDict t) e).indent = e.indent ∧
      (indentGateEntry (indentationsDict t) e = e ∨
       indentGateEntry (indentationsDict t) e = { e with tagKey := some none } ∨
       indentGateEntry (indentationsDict t) e = { e with inner_html := none })) ∧
    (cfg.checkIndentation = false → out.gatedSubmission = s) ∧
    out.result = ⟨roundTo2 out.finalScore, out.feedback, cfg.answerWeight⟩ := by
  obtain ⟨h1, h2⟩ := grade_gatedSubmission cfg s t out h
  refine ⟨h1.trans (gatedStudent_eq_map cfg s t), ?_, ?_, h2⟩
  · intro e
    exact ⟨indentGateEntry_uuid _ _, indentGateEntry_indent _ _,
      indentGateEntry_cases _ _⟩
  · intro hc
    rw [h1]; unfold gatedStudent; simp [hc]

/-- C8 amended, witness at the concrete input of the counterexample. -/
theorem c8_amended_witness :
    ∃ out, grade ⟨GradingMethodType.ORDERED, true, FeedbackType.NONE, 1, PartialCreditType.LCS⟩
        [⟨some "x", some 0, none, "w1"⟩]
        [⟨"x", some 1, -1, "t1", none, [], none, none, "w1"⟩] = Except.ok out ∧
      out.gatedSubmission = [⟨none, some 0, none, "w1"⟩] := by
  refine ⟨⟨[⟨none, some 0, none, "w1"⟩], 0, "", none, ⟨0, "", 1⟩⟩,
    by with_unfolding_all decide, ?_⟩
  have h := c8_amended
    ⟨GradingMethodType.ORDERED, true, FeedbackType.NONE, 1, PartialCreditType.LCS⟩
    [⟨some "x", some 0, none, "w1"⟩]
    [⟨"x", some 1, -1, "t1", none, [], none, none, "w1"⟩]
    ⟨[⟨none, some 0, none, "w1"⟩], 0, "", none, ⟨0, "", 1⟩⟩
    (by with_unfolding_all decide)
  rw [h.1]; decide

lemma grade_unordered (cfg : GradeConfig) (s : List SubEntry)
    (t : List AnswerData) (hm : cfg.gradingMethod = GradingMethodType.UNORDERED) :
    grade cfg s t =
      if t.length = 0 then Except.error "ZeroDivisionError"
      else Except.ok ⟨gatedStudent cfg s t,
        unorderedScore (t.map (·.uuid)) ((gatedStudent cfg s t).map (·.uuid)),
        "", none,
        ⟨roundTo2 (unorderedScore (t.map (·.uuid)) ((gatedStudent cfg s t).map (·.uuid))),
          "", cfg.answerWeight⟩⟩ := by
  simp only [grade, hm]

/-- C10: under UNORDERED grading the score is computed only from the submitted
block uuids, so two submissions with the same uuid sequence — whatever their
indent fields and whether the indentation gate runs or not — receive equal
stored scores. -/
theorem c10_unordered_score_indent_independent (cfg : GradeConfig)
    (b1 b2 : Bool) (s1 s2 : List SubEntry) (t : List AnswerData)
    (hm : cfg.gradingMethod = GradingMethodType.UNORDERED)
    (huuid : s1.map (·.uuid) = s2.map (·.uuid)) :
    (grade { cfg with checkIndentation := b1 } s1 t).map (fun o => o.result.score) =
    (grade { cfg with checkIndentation := b2 } s2 t).map (fun o => o.result.score) := by
  rw [grade_unordered { cfg with checkIndentation := b1 } s1 t hm,
    grade_unordered { cfg with checkIndentation := b2 } s2 t hm,
    gatedStudent_uuid_map, gatedStudent_uuid_map, huuid]
  split <;> rfl

/-- C10, witness: two concrete one-block submissions sharing a uuid but with
different indents, graded with the gate on and off. -/
theorem c10_witness :
    (grade ⟨GradingMethodType.UNORDERED, true, FeedbackType.NONE, 1, PartialCreditType.LCS⟩
        [⟨some "x", some 0, none, "w1"⟩]
        [⟨"x", some 1, -1, "t1", none, [], none, none, "w1"⟩]).map
      (fun o => o.result.score) =
    (grade ⟨GradingMethodType.UNORDERED, false, FeedbackType.NONE, 1, PartialCreditType.LCS⟩
        [⟨some "x", some 7, none, "w1"⟩]
        [⟨"x", some 1, -1, "t1", none, [], none, none, "w1"⟩]).map
      (fun o => o.result.score) :=
  c10_unordered_score_indent_independent
    ⟨GradingMethodType.UNORDERED, true, FeedbackType.NONE, 1, PartialCreditType.LCS⟩
    true false
    [⟨some "x", some 0, none, "w1"⟩] [⟨some "x", some 7, none, "w1"⟩]
    [⟨"x", some 1, -1, "t1", none, [], none, none, "w1"⟩]
    rfl (by decide)

/-- C5, counterexample: the UNORDERED score is not the claimed set formula for
every submission.  Submitting the single correct block twice (same uuid) makes
the code score `max(0, (1 - (2 - 1)) / 1) = 0` — `incorrect_selections` is the
list length minus the intersection count — while the claimed per-element set
formula gives `max(0, (1 - 0) / 1) = 1`; the submitted set even equals the
correct set here, yet the score is not 1. -/
theorem c5_counterexample :
    (grade ⟨GradingMethodType.UNORDERED, false, FeedbackType.NONE, 1, PartialCreditType.LCS⟩
        [⟨some "A", none, none, "u1"⟩, ⟨some "A", none, none, "u1"⟩]
        [⟨"A", none, -1, "A", none, [], none, none, "u1"⟩]).map (fun o => o.finalScore) =
      Except.ok 0 ∧
    max 0 (((((["u1"] : List String).toFinset ∩ (["u1", "u1"] : List String).toFinset).card : ℚ) -
        (((["u1", "u1"] : List String).toFinset \ (["u1"] : List String).toFinset).card : ℚ)) /
        ((["u1"] : List String).toFinset.card : ℚ)) = 1 ∧
    (["u1", "u1"] : List String).toFinset = (["u1"] : List String).toFinset ∧
    (0 : ℚ) ≠ 1 := by
  refine ⟨by with_unfolding_all decide, by with_unfolding_all decide, by decide, by decide⟩

/-- C5 amended: for duplicate-free submissions (each block can be dragged in
at most once) and a nonempty correct list, the UNORDERED score equals
`max(0, (|correct ∩ submitted| - |submitted \ correct|) / |correct|)` over the
uuid sets; the empty submission scores 0, and the score is 1 exactly when the
submitted uuid set equals the correct uuid set. -/
theorem c5_amended (cfg : GradeConfig) (s : List SubEntry) (t : List AnswerData)
    (hm : cfg.gradingMethod = GradingMethodType.UNORDERED)
    (hs : (s.map (·.uuid)).Nodup)
    (ht : (t.map (·.uuid)).Nodup)
    (hne : t ≠ []) :
    ∃ out, grade cfg s t = Except.ok out ∧
      out.finalScore =
        max 0 (((((t.map (·.uuid)).toFinset ∩ (s.map (·.uuid)).toFinset).card : ℚ) -
          (((s.map (·.uuid)).toFinset \ (t.map (·.uuid)).toFinset).card : ℚ)) /
          ((t.map (·.uuid)).toFinset.card : ℚ)) ∧
      (s = [] → out.finalScore = 0) ∧
      (out.finalScore = 1 ↔ (s.map (·.uuid)).toFinset = (t.map (·.uuid)).toFinset) := by
  have hlen : t.length ≠ 0 := fun h => hne (List.length_eq_zero.mp h)
  rw [grade_unordered cfg s t hm, if_neg hlen, gatedStudent_uuid_map]
  set T := (t.map (·.uuid)).toFinset with hT
  set S := (s.map (·.uuid)).toFinset with hS
  have hTcard : T.card = t.length := by
    rw [hT, List.toFinset_card_of_nodup ht, List.length_map]
  have hScard : S.card = s.length := by
    rw [hS, List.toFinset_card_of_nodup hs, List.length_map]
  have hsd : ((S \ T).card : ℚ) = (S.card : ℚ) - ((T ∩ S).card : ℚ) := by
    have h0 := Finset.card_sdiff_add_card_inter S T
    rw [Finset.inter_comm S T] at h0
    have h1 : ((S \ T).card : ℚ) + ((T ∩ S).card : ℚ) = (S.card : ℚ) := by
      exact_mod_cast h0
    linarith
  have hscore : unorderedScore (t.map (·.uuid)) (s.map (·.uuid)) =
      max 0 ((((T ∩ S).card : ℚ) - ((S \ T).card : ℚ)) / (T.card : ℚ)) := by
    unfold unorderedScore
    rw [← hT, ← hS]
    simp only [List.length_map]
    rw [hsd, hTcard, hScard]
  have hc_le_T : (T ∩ S).card ≤ T.card :=
    Finset.card_le_card Finset.inter_subset_left
  have hc_le_S : (T ∩ S).card ≤ S.card :=
    Finset.card_le_card Finset.inter_subset_right
  have hTpos : 0 < T.card := by
    rw [hTcard]; exact Nat.pos_of_ne_zero hlen
  have hTQ : ((T.card : ℚ)) ≠ 0 := by
    simpa using Nat.pos_iff_ne_zero.mp hTpos
  have hempty : s = [] →
      unorderedScore (t.map (·.uuid)) (s.map (·.uuid)) = 0 := by
    intro he
    rw [hscore]
    have hS0 : S = ∅ := by rw [hS, he]; rfl
    simp [hS0]
  have hiff : unorderedScore (t.map (·.uuid)) (s.map (·.uuid)) = 1 ↔ S = T := by
    rw [hscore]
    constructor
    · intro h1
      have hx : (((T ∩ S).card : ℚ) - ((S \ T).card : ℚ)) / (T.card : ℚ) = 1 := by
        rcases max_cases (0 : ℚ)
          ((((T ∩ S).card : ℚ) - ((S \ T).card : ℚ)) / (T.card : ℚ)) with ⟨he, _⟩ | ⟨he, _⟩
        · rw [he] at h1; exact absurd h1 (by norm_num)
        · rw [he] at h1; exact h1
      have hlin : ((T ∩ S).card : ℚ) - ((S \ T).card : ℚ) = (T.card : ℚ) := by
        field_simp at hx
        linarith
      rw [hsd] at hlin
      have hcn : (T ∩ S).card = T.card := by
        have h1' : ((T ∩ S).card : ℚ) ≤ (S.card : ℚ) := by exact_mod_cast hc_le_S
        have h2' : ((T ∩ S).card : ℚ) ≤ (T.card : ℚ) := by exact_mod_cast hc_le_T
        have h3' : ((T ∩ S).card : ℚ) = (T.card : ℚ) := by linarith
        exact_mod_cast h3'
      have hcm : (T ∩ S).card = S.card := by
        have hcnQ : ((T ∩ S).card : ℚ) = (T.card : ℚ) := by exact_mod_cast hcn
        have h3' : ((T ∩ S).card : ℚ) = (S.card : ℚ) := by linarith
        exact_mod_cast h3'
      have hTS1 : T ∩ S = T :=
        Finset.eq_of_subset_of_card_le Finset.inter_subset_left (le_of_eq hcn.symm)
      have hTS2 : T ∩ S = S :=
        Finset.eq_of_subset_of_card_le Finset.inter_subset_right (le_of_eq hcm.symm)
      rw [← hTS2, hTS1]
    · intro hST
      rw [hST, Finset.inter_self, Finset.sdiff_self]
      rw [Finset.card_empty]
      push_cast
      rw [sub_zero, div_self hTQ]
      norm_num
  exact ⟨_, rfl, hscore, hempty, hiff⟩

/-- C5 amended, witness: one correct block, submitted exactly once, scores 1
by the amended characterization. -/
theorem c5_amended_witness :
    ∃ out, grade ⟨GradingMethodType.UNORDERED, false, FeedbackType.NONE, 1, PartialCreditType.LCS⟩
        [⟨some "A", none, none, "u1"⟩]
        [⟨"A", none, -1, "A", none, [], none, none, "u1"⟩] = Except.ok out ∧
      out.finalScore = 1 := by
  obtain ⟨out, hok, _, _, hiff⟩ := c5_amended
    ⟨GradingMethodType.UNORDERED, false, FeedbackType.NONE, 1, PartialCreditType.LCS⟩
    [⟨some "A", none, none, "u1"⟩]
    [⟨"A", none, -1, "A", none, [], none, none, "u1"⟩]
    rfl (by decide) (by decide) (by decide)
  exact ⟨out, hok, hiff.mpr (by decide)⟩

lemma grade_ordered (cfg : GradeConfig) (s : List SubEntry)
    (t : List AnswerData) (hm : cfg.gradingMethod = GradingMethodType.ORDERED) :
    grade cfg s t = Except.ok ⟨gatedStudent cfg s t,
      (if (gatedStudent cfg s t).map (·.inner_html) =
          t.map (fun a => some a.inner_html) then (1 : ℚ) else 0),
      "", none,
      ⟨roundTo2 (if (gatedStudent cfg s t).map (·.inner_html) =
          t.map (fun a => some a.inner_html) then (1 : ℚ) else 0),
        "", cfg.answerWeight⟩⟩ := by
  simp only [grade, hm]

/-- C6, counterexample: transposing two adjacent correct elements does not
always yield 0.  Two distinct correct blocks with identical contents "x",
submitted in transposed order, still produce the content sequence
["x", "x"], so the ORDERED comparison scores 1, not 0. -/
theorem c6_counterexample :
    (grade ⟨GradingMethodType.ORDERED, false, FeedbackType.NONE, 1, PartialCreditType.LCS⟩
        [⟨some "x", none, none, "w2"⟩, ⟨some "x", none, none, "w1"⟩]
        [⟨"x", none, -1, "t1", none, [], none, none, "w1"⟩,
         ⟨"x", none, -1, "t2", none, [], none, none, "w2"⟩]).map (fun o => o.finalScore) =
      Except.ok 1 ∧ (1 : ℚ) ≠ 0 := by
  exact ⟨by with_unfolding_all decide, by norm_num⟩

/-- C6 amended: under ORDERED grading the score is 1 exactly when the (gated)
submitted content sequence equals the correct content sequence and 0
otherwise; consequently a transposition of two adjacent correct elements with
distinct contents yields 0 (while one of two equal-content elements does
not change the sequence). -/
theorem c6_amended (cfg : GradeConfig) (s : List SubEntry) (t : List AnswerData)
    (hm : cfg.gradingMethod = GradingMethodType.ORDERED) :
    ∃ out, grade cfg s t = Except.ok out ∧
      out.finalScore = (if (gatedStudent cfg s t).map (·.inner_html) =
        t.map (fun a => some a.inner_html) then (1 : ℚ) else 0) ∧
      (∀ (p r : List (Option String)) (x y : Option String),
        t.map (fun a => some a.inner_html) = p ++ x :: y :: r → x ≠ y →
        (gatedStudent cfg s t).map (·.inner_html) = p ++ y :: x :: r →
        out.finalScore = 0) := by
  rw [grade_ordered cfg s t hm]
  refine ⟨_, rfl, rfl, ?_⟩
  intro p r x y htc hxy hsc
  have hne : p ++ y :: x :: r ≠ p ++ x :: y :: r := by
    intro he
    have h2 := List.append_cancel_left he
    apply hxy
    exact (List.cons.injEq _ _ _ _ ▸ h2).1.symm
  show (if (gatedStudent cfg s t).map (·.inner_html) =
      t.map (fun a => some a.inner_html) then (1 : ℚ) else 0) = 0
  rw [hsc, htc, if_neg hne]

/-- C6 amended, witness: transposing two adjacent blocks with distinct
contents "a" and "b" scores 0. -/
theorem c6_amended_witness :
    ∃ out, grade ⟨GradingMethodType.ORDERED, false, FeedbackType.NONE, 1, PartialCreditType.LCS⟩
        [⟨some "b", none, none, "w2"⟩, ⟨some "a", none, none, "w1"⟩]
        [⟨"a", none, -1, "t1", none, [], none, none, "w1"⟩,
         ⟨"b", none, -1, "t2", none, [], none, none, "w2"⟩] = Except.ok out ∧
      out.finalScore = 0 := by
  obtain ⟨out, hok, _, htr⟩ := c6_amended
    ⟨GradingMethodType.ORDERED, false, FeedbackType.NONE, 1, PartialCreditType.LCS⟩
    [⟨some "b", none, none, "w2"⟩, ⟨some "a", none, none, "w1"⟩]
    [⟨"a", none, -1, "t1", none, [], none, none, "w1"⟩,
     ⟨"b", none, -1, "t2", none, [], none, none, "w2"⟩] rfl
  exact ⟨out, hok, htr [] [] (some "a") (some "b") (by decide) (by decide) (by decide)⟩

lemma gradeDagGo_stops_at_none (G : List (String × List String))
    (B : List (String × Option String)) :
    ∀ (sub : List (Option String)) (st : DagState) (i : Nat)
      (h : i < sub.length), sub.get ⟨i, h⟩ = none →
      gradeDagGo G B st sub ≤ i := by
  intro sub
  induction sub with
  | nil => intro st i h; exact absurd h (by simp)
  | cons a rest ih =>
    intro st i h hget
    match i with
    | 0 =>
      have ha : a = none := hget
      subst ha
      simp [gradeDagGo]
    | Nat.succ j =>
      match a with
      | none => simp [gradeDagGo]
      | some tag =>
        show gradeDagGo G B st (some tag :: rest) ≤ j + 1
        rw [gradeDagGo]
        split
        · have hrest := ih (stepUpdate B st tag) j
            (Nat.lt_of_succ_lt_succ h) hget
          omega
        · omega

/-- C7: with indentation checking on, a submitted block whose uuid matches a
stored correct block is nulled — its tag when the dict has a tag key, its
content otherwise — exactly when the recorded indent is not the wildcard -1
and the submitted indent differs; when the recorded indent is the wildcard or
the indents agree the block passes through unchanged.  A nulled entry can
never be a valid step of the prefix walker and stops the initially-correct
count at its position, so it neither validates itself nor helps satisfy any
later dependency. -/
theorem c7_indentation_gate (trueAns : List AnswerData) (e : SubEntry)
    (rv : Option Int)
    (hmatch : dget (indentationsDict trueAns) e.uuid = some rv) :
    ((rv ≠ some (-1) ∧ e.indent ≠ rv →
      indentGateEntry (indentationsDict trueAns) e =
        (match e.tagKey with
         | some _ => { e with tagKey := some none }
         | none => { e with inner_html := none })) ∧
     (rv = some (-1) ∨ e.indent = rv →
      indentGateEntry (indentationsDict trueAns) e = e)) ∧
    (∀ (G : List (String × List String)) (B : List (String × Option String))
      (st : DagState), stepValid G B st none = false) ∧
    (∀ (G : List (String × List String)) (B : List (String × Option String))
      (sub : List (Option String)) (i : Nat) (h : i < sub.length),
      sub.get ⟨i, h⟩ = none → gradeDagGo G B initState sub ≤ i) := by
  refine ⟨⟨?_, ?_⟩, fun G B st => rfl,
    fun G B sub i h hg => gradeDagGo_stops_at_none G B sub initState i h hg⟩
  · intro hcond
    unfold indentGateEntry
    rw [hmatch]
    show (if (some rv).join ≠ some (-1) ∧ e.indent ≠ (some rv).join then _ else _) = _
    simp only [Option.join, Option.some_bind, id_eq]
    rw [if_pos hcond]
  · intro hcond
    unfold indentGateEntry
    rw [hmatch]
    show (if (some rv).join ≠ some (-1) ∧ e.indent ≠ (some rv).join then _ else _) = _
    simp only [Option.join, Option.some_bind, id_eq]
    rw [if_neg]
    push_neg
    intro h1
    rcases hcond with hc | hc
    · exact absurd hc h1
    · exact hc

/-- C7, witness: recorded indent 1, submitted indent 0, no tag key: the
content is nulled; a second block with the wildcard indent -1 passes
unchanged. -/
theorem c7_witness :
    indentGateEntry (indentationsDict [⟨"x", some 1, -1, "t1", none, [], none, none, "w1"⟩])
      ⟨some "x", some 0, none, "w1"⟩ = ⟨none, some 0, none, "w1"⟩ ∧
    indentGateEntry (indentationsDict [⟨"x", some (-1), -1, "t1", none, [], none, none, "w1"⟩])
      ⟨some "x", some 0, none, "w1"⟩ = ⟨some "x", some 0, none, "w1"⟩ := by
  constructor
  · exact (c7_indentation_gate [⟨"x", some 1, -1, "t1", none, [], none, none, "w1"⟩]
      ⟨some "x", some 0, none, "w1"⟩ (some 1) (by decide)).1.1 ⟨by decide, by decide⟩
  · exact (c7_indentation_gate [⟨"x", some (-1), -1, "t1", none, [], none, none, "w1"⟩]
      ⟨some "x", some 0, none, "w1"⟩ (some (-1)) (by decide)).1.2 (Or.inl rfl)

lemma grade_rankdag (cfg : GradeConfig) (s : List SubEntry)
    (t : List AnswerData)
    (hm : cfg.gradingMethod = GradingMethodType.RANKING ∨
          cfg.gradingMethod = GradingMethodType.DAG) :
    grade cfg s t =
      gradeDagBranch cfg (gatedStudent cfg s t) (graphOf cfg.gradingMethod t) := by
  obtain hm | hm := hm <;> rw [hm] <;> simp only [grade, hm]

lemma gradeDagBranch_char (cfg : GradeConfig) (student : List SubEntry)
    (G : List (String × List String)) (B : List (String × Option String))
    (sub : List (Option String)) (out : GradeOutcome)
    (hsub : student.mapM (·.tagKey) = some sub)
    (hok : gradeDagBranch cfg student (G, B) = Except.ok out) :
    out.firstWrong = (if (gradeDag sub G B).1 = sub.length then none
      else some (gradeDag sub G B).1) ∧
    out.feedback = (if out.finalScore < 1 then
      feedbackFor cfg B out.firstWrong else "") ∧
    (cfg.partialCredit = PartialCreditType.NONE →
      out.finalScore =
        (if (gradeDag sub G B).1 = (gradeDag sub G B).2 then (1 : ℚ) else 0)) ∧
    (cfg.partialCredit = PartialCreditType.LCS →
      out.finalScore = max 0 ((((gradeDag sub G B).2 : ℚ) -
        (lcsPartialCredit sub G B : ℚ)) / ((gradeDag sub G B).2 : ℚ))) := by
  unfold gradeDagBranch at hok
  rw [hsub] at hok
  dsimp only at hok
  cases hpc : cfg.partialCredit
  · rw [hpc] at hok
    dsimp only [Except.map] at hok
    obtain rfl := (Except.ok.injEq _ _).mp hok
    refine ⟨rfl, rfl, fun _ => rfl, ?_⟩
    intro hlcs
    simp [hpc] at hlcs
  · rw [hpc] at hok
    by_cases hL0 : (gradeDag sub G B).2 = 0
    · rw [if_pos hL0] at hok
      dsimp only [Except.map] at hok
      cases hok
    · rw [if_neg hL0] at hok
      dsimp only [Except.map] at hok
      obtain rfl := (Except.ok.injEq _ _).mp hok
      refine ⟨rfl, rfl, ?_, fun _ => rfl⟩
      intro hn
      simp [hpc] at hn

lemma gradeDagBranch_ok_exists (cfg : GradeConfig) (student : List SubEntry)
    (G : List (String × List String)) (B : List (String × Option String))
    (sub : List (Option String))
    (hsub : student.mapM (·.tagKey) = some sub)
    (hL : cfg.partialCredit = PartialCreditType.LCS → (gradeDag sub G B).2 ≠ 0) :
    ∃ out, gradeDagBranch cfg student (G, B) = Except.ok out := by
  unfold gradeDagBranch
  rw [hsub]
  dsimp only
  cases hpc : cfg.partialCredit
  · exact ⟨_, rfl⟩
  · rw [if_neg (hL hpc)]
    exact ⟨_, rfl⟩

/-- C2: under RANKING or DAG grading, with partial-credit NONE the final score
is 1 when the initially-correct count reaches the true answer length and 0
otherwise (never fractional); with partial-credit LCS it is
`max(0, (L - editDistance) / L)` where the edit distance is the minimum
insert/delete count to some valid topological order (`lcsPartialCredit`) and
L the true answer length, provided L is nonzero (a zero L is a Python
ZeroDivisionError). -/
theorem c2_partial_credit_scores (cfg : GradeConfig) (s : List SubEntry)
    (t : List AnswerData) (sub : List (Option String))
    (G : List (String × List String)) (B : List (String × Option String))
    (hm : cfg.gradingMethod = GradingMethodType.RANKING ∨
          cfg.gradingMethod = GradingMethodType.DAG)
    (hGB : graphOf cfg.gradingMethod t = (G, B))
    (hsub : (gatedStudent cfg s t).mapM (·.tagKey) = some sub) :
    (cfg.partialCredit = PartialCreditType.NONE →
      ∃ out, grade cfg s t = Except.ok out ∧
        out.finalScore =
          (if (gradeDag sub G B).1 = (gradeDag sub G B).2 then (1 : ℚ) else 0)) ∧
    (cfg.partialCredit = PartialCreditType.LCS → (gradeDag sub G B).2 ≠ 0 →
      ∃ out, grade cfg s t = Except.ok out ∧
        out.finalScore = max 0 ((((gradeDag sub G B).2 : ℚ) -
          (lcsPartialCredit sub G B : ℚ)) / ((gradeDag sub G B).2 : ℚ))) := by
  constructor
  · intro hpc
    obtain ⟨out, hok⟩ := gradeDagBranch_ok_exists cfg (gatedStudent cfg s t) G B sub hsub
      (fun h => absurd (hpc.symm.trans h) (by decide))
    refine ⟨out, by rw [grade_rankdag cfg s t hm, hGB]; exact hok, ?_⟩
    exact (gradeDagBranch_char cfg _ G B sub out hsub hok).2.2.1 hpc
  · intro hpc hL
    obtain ⟨out, hok⟩ := gradeDagBranch_ok_exists cfg (gatedStudent cfg s t) G B sub hsub
      (fun _ => hL)
    refine ⟨out, by rw [grade_rankdag cfg s t hm, hGB]; exact hok, ?_⟩
    exact (gradeDagBranch_char cfg _ G B sub out hsub hok).2.2.2 hpc

/-- C2, witness: ranking instance A=1, B=2 with submission [B, A]: zero
initially-correct positions, so partial credit NONE scores 0. -/
theorem c2_witness :
    ∃ out, grade (⟨GradingMethodType.RANKING, false, FeedbackType.NONE, 1,
        PartialCreditType.NONE⟩ : GradeConfig)
        [⟨some "B", none, some (some "B"), "uB"⟩, ⟨some "A", none, some (some "A"), "uA"⟩]
        [⟨"A", none, 1, "A", none, [], none, none, "uA"⟩,
         ⟨"B", none, 2, "B", none, [], none, none, "uB"⟩] = Except.ok out ∧
      out.finalScore = 0 := by
  have h := (c2_partial_credit_scores
    (⟨GradingMethodType.RANKING, false, FeedbackType.NONE, 1,
        PartialCreditType.NONE⟩ : GradeConfig)
    [⟨some "B", none, some (some "B"), "uB"⟩, ⟨some "A", none, some (some "A"), "uA"⟩]
    [⟨"A", none, 1, "A", none, [], none, none, "uA"⟩,
     ⟨"B", none, 2, "B", none, [], none, none, "uB"⟩]
    [some "B", some "A"]
    [("A", []), ("B", ["A"])] []
    (Or.inl rfl) (by with_unfolding_all decide) (by decide)).1 rfl
  obtain ⟨out, hok, hfs⟩ := h
  refine ⟨out, hok, ?_⟩
  rw [hfs]
  with_unfolding_all decide

/-- C3: under RANKING or DAG grading the first-wrong index is absent exactly
when the initially-correct count equals the submission length (even when the
submission is shorter than the correct set); when the final score is below 1
under the first-wrong feedback policy, the feedback is the incomplete message
when no first-wrong index exists, and otherwise starts with the
wrong-at-block message at the 1-based first invalid position. -/
theorem c3_first_wrong_feedback (cfg : GradeConfig) (s : List SubEntry)
    (t : List AnswerData) (sub : List (Option String))
    (G : List (String × List String)) (B : List (String × Option String))
    (out : GradeOutcome)
    (hm : cfg.gradingMethod = GradingMethodType.RANKING ∨
          cfg.gradingMethod = GradingMethodType.DAG)
    (hGB : graphOf cfg.gradingMethod t = (G, B))
    (hsub : (gatedStudent cfg s t).mapM (·.tagKey) = some sub)
    (hok : grade cfg s t = Except.ok out) :
    (out.firstWrong = none ↔ (gradeDag sub G B).1 = sub.length) ∧
    (out.finalScore < 1 → cfg.feedbackType = FeedbackType.FIRST_WRONG →
      (out.firstWrong = none → out.feedback = incompleteFeedback) ∧
      (∀ k, out.firstWrong = some k → k = (gradeDag sub G B).1 ∧
        ∃ rest, out.feedback = wrongAtBlockFeedback (k + 1) ++ rest)) := by
  rw [grade_rankdag cfg s t hm, hGB] at hok
  obtain ⟨hfw, hfb, _, _⟩ := gradeDagBranch_char cfg _ G B sub out hsub hok
  constructor
  · rw [hfw]
    by_cases hn : (gradeDag sub G B).1 = sub.length
    · simp [hn]
    · simp [hn]
  · intro hlt hft
    rw [hfb, if_pos hlt]
    unfold feedbackFor
    rw [hft]
    constructor
    · intro hnone
      rw [hnone]
    · intro k hk
      rw [hk]
      constructor
      · rw [hfw] at hk
        by_cases hn : (gradeDag sub G B).1 = sub.length
        · rw [if_pos hn] at hk; cases hk
        · rw [if_neg hn] at hk
          exact ((Option.some.injEq _ _).mp hk).symm
      · refine ⟨(if cfg.checkIndentation then indentationFeedback else "") ++
          ((if (!B.isEmpty && B.any (fun p => p.2.isSome)) = true
            then blockGroupFeedback else "") ++ "</ul>"), ?_⟩
        dsimp only
        rw [String.append_assoc, String.append_assoc]

/-- C3, witness: the [B, A] submission of the two-rank instance has its first
invalid position at index 0 and receives the wrong-at-block-1 message. -/
theorem c3_witness :
    ∃ out, grade (⟨GradingMethodType.RANKING, false, FeedbackType.FIRST_WRONG, 1,
        PartialCreditType.NONE⟩ : GradeConfig)
        [⟨some "B", none, some (some "B"), "uB"⟩, ⟨some "A", none, some (some "A"), "uA"⟩]
        [⟨"A", none, 1, "A", none, [], none, none, "uA"⟩,
         ⟨"B", none, 2, "B", none, [], none, none, "uB"⟩] = Except.ok out ∧
      out.firstWrong = some 0 ∧
      ∃ rest, out.feedback = wrongAtBlockFeedback 1 ++ rest := by
  have hok2 : grade (⟨GradingMethodType.RANKING, false, FeedbackType.FIRST_WRONG, 1,
      PartialCreditType.NONE⟩ : GradeConfig)
      [⟨some "B", none, some (some "B"), "uB"⟩, ⟨some "A", none, some (some "A"), "uA"⟩]
      [⟨"A", none, 1, "A", none, [], none, none, "uA"⟩,
       ⟨"B", none, 2, "B", none, [], none, none, "uB"⟩] = Except.ok
      ⟨[⟨some "B", none, some (some "B"), "uB"⟩, ⟨some "A", none, some (some "A"), "uA"⟩],
        0, wrongAtBlockFeedback 1 ++ "</ul>", some 0,
        ⟨0, wrongAtBlockFeedback 1 ++ "</ul>", 1⟩⟩ := by
    with_unfolding_all decide
  obtain ⟨_, hfb⟩ := c3_first_wrong_feedback
    (⟨GradingMethodType.RANKING, false, FeedbackType.FIRST_WRONG, 1,
        PartialCreditType.NONE⟩ : GradeConfig)
    [⟨some "B", none, some (some "B"), "uB"⟩, ⟨some "A", none, some (some "A"), "uA"⟩]
    [⟨"A", none, 1, "A", none, [], none, none, "uA"⟩,
     ⟨"B", none, 2, "B", none, [], none, none, "uB"⟩]
    [some "B", some "A"]
    [("A", []), ("B", ["A"])] []
    ⟨[⟨some "B", none, some (some "B"), "uB"⟩, ⟨some "A", none, some (some "A"), "uA"⟩],
      0, wrongAtBlockFeedback 1 ++ "</ul>", some 0,
      ⟨0, wrongAtBlockFeedback 1 ++ "</ul>", 1⟩⟩
    (Or.inl rfl) (by with_unfolding_all decide) (by decide) hok2
  obtain ⟨-, hsome⟩ := hfb (by norm_num) rfl
  obtain ⟨-, rest, hrest⟩ := hsome 0 rfl
  exact ⟨_, hok2, rfl, rest, hrest⟩

lemma dget_nil {α : Type} (k : String) : dget ([] : List (String × α)) k = none := rfl

lemma dget_cons {α : Type} (k' : String) (v : α) (d : List (String × α))
    (k : String) :
    dget ((k', v) :: d) k = if k' = k then some v else dget d k := by
  unfold dget
  rw [List.find?_cons]
  by_cases h : k' = k
  · simp [h]
  · simp [h]

lemma mem_dkeys {α : Type} (d : List (String × α)) (k : String) :
    k ∈ dkeys d ↔ ∃ v, (k, v) ∈ d := by
  unfold dkeys
  constructor
  · intro h
    obtain ⟨p, hp, he⟩ := List.mem_map.mp h
    exact ⟨p.2, by rw [← he]; exact hp⟩
  · rintro ⟨v, hv⟩
    exact List.mem_map.mpr ⟨(k, v), hv, rfl⟩

lemma dget_append_of_mem {α : Type} (d1 d2 : List (String × α)) (k : String)
    (h : k ∈ dkeys d1) : dget (d1 ++ d2) k = dget d1 k := by
  induction d1 with
  | nil => exact absurd h (by simp [dkeys])
  | cons p rest ih =>
    rw [List.cons_append, show p = (p.1, p.2) from rfl, dget_cons, dget_cons]
    by_cases hk : p.1 = k
    · simp [hk]
    · rw [if_neg hk, if_neg hk]
      apply ih
      rcases (mem_dkeys _ _).mp h with ⟨v, hv⟩
      rcases List.mem_cons.mp hv with he | hm
      · exact absurd (congrArg Prod.fst he).symm hk
      · exact (mem_dkeys _ _).mpr ⟨v, hm⟩

lemma dget_append_of_not_mem {α : Type} (d1 d2 : List (String × α)) (k : String)
    (h : k ∉ dkeys d1) : dget (d1 ++ d2) k = dget d2 k := by
  induction d1 with
  | nil => rfl
  | cons p rest ih =>
    rw [List.cons_append, show p = (p.1, p.2) from rfl, dget_cons]
    have hk : p.1 ≠ k := by
      intro he
      exact h (by simp [dkeys, he])
    rw [if_neg hk]
    exact ih (fun hm => h (by simp [dkeys] at hm ⊢; exact Or.inr hm))

lemma dinsert_of_not_mem {α : Type} (d : List (String × α)) (k : String) (v : α)
    (h : k ∉ dkeys d) : dinsert d k v = d ++ [(k, v)] := by
  unfold dinsert
  rw [if_neg]
  intro hs
  obtain ⟨p, hp, hpk⟩ := List.find?_isSome.mp hs
  exact h ((mem_dkeys _ _).mpr ⟨p.2, by
    have : p.1 = k := by simpa using hpk
    rw [show (k, p.2) = p from by rw [← this]]
    exact hp⟩)

lemma dkeys_append {α : Type} (d1 d2 : List (String × α)) :
    dkeys (d1 ++ d2) = dkeys d1 ++ dkeys d2 := by
  simp [dkeys]

lemma find?_of_key_nodup {α : Type} (key : α → String) :
    ∀ (l : List α), (l.map key).Nodup → ∀ b ∈ l, ∀ x, key b = x →
      l.find? (fun a => key a = x) = some b := by
  intro l
  induction l with
  | nil => intro _ b hb; exact absurd hb (by simp)
  | cons h tl ih =>
    intro hnd b hb x hbx
    rw [List.find?_cons]
    by_cases hh : key h = x
    · simp only [hh, decide_eq_true_eq, decide_True]
      rcases List.mem_cons.mp hb with rfl | hbtl
      · rfl
      · exfalso
        have h1 : key b ∈ tl.map key := List.mem_map.mpr ⟨b, hbtl, rfl⟩
        have h2 : key h ∉ tl.map key := (List.nodup_cons.mp hnd).1
        rw [hh, ← hbx] at h2
        exact h2 h1
    · simp only [hh, decide_False]
      rcases List.mem_cons.mp hb with rfl | hbtl
      · exact absurd hbx hh
      · exact ih (List.nodup_cons.mp hnd).2 b hbtl x hbx

lemma foldl_dinsert_eq_map {α β : Type} (key : α → String) (val : α → β) :
    ∀ (l : List α) (d : List (String × β)),
      (∀ a ∈ l, key a ∉ dkeys d) → (l.map key).Nodup →
      l.foldl (fun d a => dinsert d (key a) (val a)) d =
        d ++ l.map (fun a => (key a, val a)) := by
  intro l
  induction l with
  | nil => intro d _ _; simp
  | cons a tl ih =>
    intro d hfresh hnd
    rw [List.foldl_cons, dinsert_of_not_mem d (key a) (val a) (hfresh a (by simp))]
    rw [ih (d ++ [(key a, val a)]) ?fresh (List.nodup_cons.mp hnd).2]
    · simp
    case fresh =>
      intro b hb hmem
      rw [dkeys_append] at hmem
      rcases List.mem_append.mp hmem with hm | hm
      · exact hfresh b (by simp [hb]) hm
      · have : key b = key a := by simpa [dkeys] using hm
        have h2 : key a ∉ tl.map key := (List.nodup_cons.mp hnd).1
        exact h2 (this ▸ List.mem_map.mpr ⟨b, hb, rfl⟩)

lemma dget_map_pairs {α β : Type} (key : α → String) (val : α → β) :
    ∀ (l : List α) (k : String),
      dget (l.map (fun a => (key a, val a))) k =
        (l.find? (fun a => key a = k)).map val := by
  intro l
  induction l with
  | nil => intro k; rfl
  | cons a tl ih =>
    intro k
    rw [List.map_cons, dget_cons, List.find?_cons]
    by_cases h : key a = k
    · simp [h]
    · simp only [h, decide_False, if_neg h]
      exact ih k

lemma tagToRank_eq (l : List AnswerData) (hnd : (l.map (·.tag)).Nodup) :
    l.foldl (fun d a => dinsert d a.tag a.ranking) ([] : List (String × Int)) =
      l.map (fun a => (a.tag, a.ranking)) := by
  have h := foldl_dinsert_eq_map (fun a : AnswerData => a.tag)
    (fun a : AnswerData => a.ranking) l [] (by simp [dkeys]) hnd
  simpa using h

lemma tagToRank_dget (l : List AnswerData) (hnd : (l.map (·.tag)).Nodup)
    (a : AnswerData) (ha : a ∈ l) :
    dget (l.foldl (fun d a => dinsert d a.tag a.ranking) []) a.tag =
      some a.ranking := by
  rw [tagToRank_eq l hnd, dget_map_pairs (fun a : AnswerData => a.tag)
    (fun a : AnswerData => a.ranking) l a.tag,
    find?_of_key_nodup (fun a : AnswerData => a.tag) l hnd a ha a.tag rfl]
  rfl

lemma tagToRank_dkeys (l : List AnswerData) (hnd : (l.map (·.tag)).Nodup) :
    dkeys (l.foldl (fun d a => dinsert d a.tag a.ranking) []) = l.map (·.tag) := by
  rw [tagToRank_eq l hnd]
  simp [dkeys]

lemma linesOfRank_mem (l : List AnswerData) (hnd : (l.map (·.tag)).Nodup)
    (x : String) (r : Int) :
    (x ∈ (dkeys (l.foldl (fun d a => dinsert d a.tag a.ranking) [])).filter
      (fun t => decide (dget (l.foldl (fun d a => dinsert d a.tag a.ranking) []) t = some r))) ↔
    ∃ b ∈ l, b.tag = x ∧ b.ranking = r := by
  rw [List.mem_filter, tagToRank_dkeys l hnd]
  constructor
  · rintro ⟨hmem, hcond⟩
    obtain ⟨b, hb, rfl⟩ := List.mem_map.mp hmem
    refine ⟨b, hb, rfl, ?_⟩
    rw [tagToRank_dget l hnd b hb] at hcond
    simpa using hcond
  · rintro ⟨b, hb, rfl, hr⟩
    refine ⟨List.mem_map.mpr ⟨b, hb, rfl⟩, ?_⟩
    rw [tagToRank_dget l hnd b hb, hr]
    simp

lemma no_prev_of_first (l : List AnswerData)
    (hsort : l.Pairwise (fun a b => a.ranking ≤ b.ranking))
    (a0 : AnswerData) (rest : List AnswerData) (hl : l = a0 :: rest) :
    ∀ rb, ¬ isPrevDistinctRank l rb a0.ranking := by
  rintro rb ⟨hlt, ⟨b, hb, hbr⟩, hmax⟩
  subst hl
  rcases List.mem_cons.mp hb with rfl | hbrest
  · exact absurd (hbr ▸ hlt) (lt_irrefl _)
  · have := (List.pairwise_cons.mp hsort).1 b hbrest
    rw [hbr] at this
    exact absurd (lt_of_le_of_lt this hlt) (lt_irrefl _)

lemma prev_distinct_at_change (l p rest2 : List AnswerData) (a0 : AnswerData)
    (hl : l = p ++ a0 :: rest2)
    (hsort : l.Pairwise (fun a b => a.ranking ≤ b.ranking)) (r : Int)
    (hlast : ∃ lastA ∈ p, lastA.ranking = r)
    (hub : ∀ c ∈ p, c.ranking ≤ r) (hne : a0.ranking ≠ r) :
    ∀ rb, isPrevDistinctRank l rb a0.ranking ↔ rb = r := by
  obtain ⟨lastA, hlastp, hlastr⟩ := hlast
  have hpw := List.pairwise_append.mp (hl ▸ hsort)
  have hr_lt : r < a0.ranking := by
    have h1 : lastA.ranking ≤ a0.ranking := hpw.2.2 lastA hlastp a0 (by simp)
    rw [hlastr] at h1
    exact lt_of_le_of_ne h1 (fun he => hne he.symm)
  have hafter : ∀ c ∈ a0 :: rest2, a0.ranking ≤ c.ranking := by
    intro c hc
    rcases List.mem_cons.mp hc with rfl | hc2
    · exact le_refl _
    · exact (List.pairwise_cons.mp hpw.2.1).1 c hc2
  intro rb
  constructor
  · rintro ⟨hlt, ⟨b, hb, hbr⟩, hmax⟩
    have hble : rb ≤ r := by
      rcases List.mem_append.mp (hl ▸ hb) with hbp | hbs
      · exact hbr ▸ hub b hbp
      · exact absurd (lt_of_le_of_lt (hbr ▸ hafter b hbs) hlt) (lt_irrefl _)
    have hrle : r ≤ rb := hlastr ▸ hmax lastA (by rw [hl]; exact List.mem_append.mpr (Or.inl hlastp)) (hlastr ▸ hr_lt)
    exact le_antisymm hble hrle
  · rintro rfl
    refine ⟨hr_lt, ⟨lastA, by rw [hl]; exact List.mem_append.mpr (Or.inl hlastp), hlastr⟩, ?_⟩
    intro c hc hclt
    rcases List.mem_append.mp (hl ▸ hc) with hcp | hcs
    · exact hub c hcp
    · exact absurd (lt_of_le_of_lt (hafter c hcs) hclt) (lt_irrefl _)

lemma rankLoopGo_char (l : List AnswerData)
    (hsort : l.Pairwise (fun a b => a.ranking ≤ b.ranking))
    (hnd : (l.map (·.tag)).Nodup) :
    ∀ (rest p : List AnswerData) (g : List (String × List String))
      (cur : List String) (pr : Option Int),
      l = p ++ rest →
      dkeys g = p.map (·.tag) →
      (∀ a ∈ p, ∃ deps, dget g a.tag = some deps ∧
        ∀ x, x ∈ deps ↔ ∃ b ∈ l, b.tag = x ∧
          isPrevDistinctRank l b.ranking a.ranking) →
      (match pr with
       | none => p = [] ∧ cur = []
       | some r => (∃ lastA ∈ p, lastA.ranking = r) ∧ (∀ c ∈ p, c.ranking ≤ r) ∧
          (∀ x, x ∈ cur ↔ ∃ b ∈ l, b.tag = x ∧
            isPrevDistinctRank l b.ranking r)) →
      ∀ a ∈ l, ∃ deps,
        dget (rankLoopGo (l.foldl (fun d a => dinsert d a.tag a.ranking) [])
          (fun r => (dkeys (l.foldl (fun d a => dinsert d a.tag a.ranking) [])).filter
            (fun t => decide (dget (l.foldl (fun d a => dinsert d a.tag a.ranking) []) t = some r)))
          g cur pr (rest.map (·.tag))) a.tag = some deps ∧
        ∀ x, x ∈ deps ↔ ∃ b ∈ l, b.tag = x ∧
          isPrevDistinctRank l b.ranking a.ranking := by
  intro rest
  induction rest with
  | nil =>
    intro p g cur pr hl hkeys hg _ a ha
    simp only [List.map_nil, rankLoopGo]
    exact hg a (by rwa [hl, List.append_nil] at ha)
  | cons a0 rest2 ih =>
    intro p g cur pr hl hkeys hg hinv
    have ha0l : a0 ∈ l := by
      rw [hl]; exact List.mem_append.mpr (Or.inr (by simp))
    have hrank : dget (l.foldl (fun d a => dinsert d a.tag a.ranking) []) a0.tag =
        some a0.ranking := tagToRank_dget l hnd a0 ha0l
    have hfresh : a0.tag ∉ p.map (·.tag) := by
      have hnd2 := hnd
      rw [hl, List.map_append, List.nodup_append] at hnd2
      exact fun hm => hnd2.2.2 hm (by simp)
    have hfreshg : a0.tag ∉ dkeys g := by rw [hkeys]; exact hfresh
    have hpw := List.pairwise_append.mp (hl ▸ hsort)
    -- the three invariant-restoring pieces, given any cur2 with the right
    -- membership characterization
    have main : ∀ cur2 : List String,
        (∀ x, x ∈ cur2 ↔ ∃ b ∈ l, b.tag = x ∧
          isPrevDistinctRank l b.ranking a0.ranking) →
        ∀ a ∈ l, ∃ deps,
          dget (rankLoopGo (l.foldl (fun d a => dinsert d a.tag a.ranking) [])
            (fun r => (dkeys (l.foldl (fun d a => dinsert d a.tag a.ranking) [])).filter
              (fun t => decide (dget (l.foldl (fun d a => dinsert d a.tag a.ranking) []) t = some r)))
            (dinsert g a0.tag cur2) cur2 (some a0.ranking) (rest2.map (·.tag))) a.tag =
            some deps ∧
          ∀ x, x ∈ deps ↔ ∃ b ∈ l, b.tag = x ∧
            isPrevDistinctRank l b.ranking a.ranking := by
      intro cur2 hcur2
      have hins : dinsert g a0.tag cur2 = g ++ [(a0.tag, cur2)] :=
        dinsert_of_not_mem g a0.tag cur2 hfreshg
      apply ih (p ++ [a0]) (dinsert g a0.tag cur2) cur2 (some a0.ranking)
      · rw [hl, List.append_assoc]; rfl
      · rw [hins, dkeys_append, hkeys, List.map_append]; rfl
      · intro a' ha'
        rcases List.mem_append.mp ha' with hap | ha0'
        · obtain ⟨deps, hdg, hdc⟩ := hg a' hap
          refine ⟨deps, ?_, hdc⟩
          rw [hins, dget_append_of_mem g _ a'.tag
            (by rw [hkeys]; exact List.mem_map.mpr ⟨a', hap, rfl⟩)]
          exact hdg
        · have ha0e : a' = a0 := by simpa using ha0'
          subst ha0e
          refine ⟨cur2, ?_, hcur2⟩
          rw [hins, dget_append_of_not_mem g _ a'.tag hfreshg, dget_cons,
            if_pos rfl]
      · refine ⟨⟨a0, by simp, rfl⟩, ?_, hcur2⟩
        intro c hc
        rcases List.mem_append.mp hc with hcp | hca
        · exact hpw.2.2 c hcp a0 (by simp)
        · have : c = a0 := by simpa using hca
          rw [this]
    -- now dispatch on pr to identify cur2
    cases pr with
    | none =>
      obtain ⟨rfl, rfl⟩ := hinv
      have hl2 : l = a0 :: rest2 := by simpa using hl
      have hchar : ∀ x, x ∈ ([] : List String) ↔ ∃ b ∈ l, b.tag = x ∧
          isPrevDistinctRank l b.ranking a0.ranking := by
        intro x
        simp only [List.not_mem_nil, false_iff]
        rintro ⟨b, hb, -, hprev⟩
        exact no_prev_of_first l hsort a0 rest2 hl2 b.ranking hprev
      intro a ha
      have hgoal := main [] hchar a ha
      simp only [List.map_cons, rankLoopGo, hrank, Option.getD_some] at hgoal ⊢
      exact hgoal
    | some r =>
      obtain ⟨hlast, hub, hcur⟩ := hinv
      by_cases hch : a0.ranking = r
      · have hchar : ∀ x, x ∈ cur ↔ ∃ b ∈ l, b.tag = x ∧
            isPrevDistinctRank l b.ranking a0.ranking := by
          intro x; rw [hcur x, hch]
        intro a ha
        have hgoal := main cur hchar a ha
        simp only [List.map_cons, rankLoopGo, hrank, Option.getD_some,
          hch, ne_eq, not_true_eq_false, if_false, ite_self] at hgoal ⊢
        exact hgoal
      · have hiffr := prev_distinct_at_change l p rest2 a0 hl hsort r hlast hub hch
        have hchar : ∀ x,
            (x ∈ (dkeys (l.foldl (fun d a => dinsert d a.tag a.ranking) [])).filter
              (fun t => decide (dget (l.foldl (fun d a => dinsert d a.tag a.ranking) []) t = some r))) ↔
            ∃ b ∈ l, b.tag = x ∧ isPrevDistinctRank l b.ranking a0.ranking := by
          intro x
          rw [linesOfRank_mem l hnd x r]
          constructor
          · rintro ⟨b, hb, htag, hbr⟩
            exact ⟨b, hb, htag, (hiffr b.ranking).mpr hbr⟩
          · rintro ⟨b, hb, htag, hprev⟩
            exact ⟨b, hb, htag, (hiffr b.ranking).mp hprev⟩
        intro a ha
        have hgoal := main _ hchar a ha
        simp only [List.map_cons, rankLoopGo, hrank, Option.getD_some,
          hch, ne_eq, not_false_eq_true, if_true] at hgoal ⊢
        exact hgoal

lemma isPrevDistinctRank_perm (l1 l2 : List AnswerData) (hp : l1.Perm l2)
    (rb ra : Int) :
    isPrevDistinctRank l1 rb ra ↔ isPrevDistinctRank l2 rb ra := by
  unfold isPrevDistinctRank
  constructor
  · rintro ⟨h1, ⟨b, hb, hbr⟩, h3⟩
    exact ⟨h1, ⟨b, hp.mem_iff.mp hb, hbr⟩,
      fun c hc => h3 c (hp.mem_iff.mpr hc)⟩
  · rintro ⟨h1, ⟨b, hb, hbr⟩, h3⟩
    exact ⟨h1, ⟨b, hp.mem_iff.mpr hb, hbr⟩,
      fun c hc => h3 c (hp.mem_iff.mp hc)⟩

lemma rankSorted_perm (l : List AnswerData) : (rankSorted l).Perm l :=
  List.mergeSort_perm l _

lemma rankSorted_sorted (l : List AnswerData) :
    (rankSorted l).Pairwise (fun a b => a.ranking ≤ b.ranking) := by
  have h := @List.sorted_mergeSort AnswerData
    (fun a b : AnswerData => decide (a.ranking ≤ b.ranking))
    (fun a b c hab hbc => by
      simp only [decide_eq_true_eq] at hab hbc ⊢
      exact le_trans hab hbc)
    (fun a b => by
      simp only [Bool.or_eq_true, decide_eq_true_eq]
      exact le_total a.ranking b.ranking)
    l
  exact h.imp (fun hab => by simpa using hab)

/-- The graph characterization over the sorted list, packaged. -/
lemma buildRankingGraph_char (trueAns : List AnswerData)
    (hnd : (trueAns.map (·.tag)).Nodup) (a : AnswerData) (ha : a ∈ trueAns) :
    ∃ deps, dget (buildRankingGraph (rankSorted trueAns)) a.tag = some deps ∧
      ∀ x, x ∈ deps ↔ ∃ b ∈ trueAns, b.tag = x ∧
        isPrevDistinctRank trueAns b.ranking a.ranking := by
  have hperm : (rankSorted trueAns).Perm trueAns := rankSorted_perm trueAns
  have hnd2 : ((rankSorted trueAns).map (·.tag)).Nodup :=
    hnd.perm (hperm.map (·.tag)).symm
  have hsort := rankSorted_sorted trueAns
  have hmain := rankLoopGo_char (rankSorted trueAns) hsort hnd2
    (rankSorted trueAns) [] [] [] none rfl rfl (by intro a' ha'; cases ha')
    ⟨rfl, rfl⟩ a (hperm.mem_iff.mpr ha)
  obtain ⟨deps, hdg, hchar⟩ := hmain
  refine ⟨deps, ?_, ?_⟩
  · rw [buildRankingGraph]
    exact hdg
  · intro x
    rw [hchar x]
    constructor
    · rintro ⟨b, hb, htag, hprev⟩
      exact ⟨b, hperm.mem_iff.mp hb, htag,
        (isPrevDistinctRank_perm _ _ hperm _ _).mp hprev⟩
    · rintro ⟨b, hb, htag, hprev⟩
      exact ⟨b, hperm.mem_iff.mpr hb, htag,
        (isPrevDistinctRank_perm _ _ hperm _ _).mpr hprev⟩

/-- C4: under RANKING grading the dependency graph built by `grade` assigns to
every fragment the dependency set of exactly the fragment tags whose rank is
the previous distinct rank value in ascending rank order; fragments of the
lowest rank get an empty dependency list, and fragments sharing a rank never
depend on one another. -/
theorem c4_ranking_graph (trueAns : List AnswerData)
    (hnd : (trueAns.map (·.tag)).Nodup) (a : AnswerData) (ha : a ∈ trueAns) :
    ∃ deps, dget (buildRankingGraph (rankSorted trueAns)) a.tag = some deps ∧
      (∀ x, x ∈ deps ↔ ∃ b ∈ trueAns, b.tag = x ∧
        isPrevDistinctRank trueAns b.ranking a.ranking) ∧
      ((∀ b ∈ trueAns, a.ranking ≤ b.ranking) → deps = []) ∧
      (∀ b ∈ trueAns, b.ranking = a.ranking → b.tag ∉ deps) := by
  obtain ⟨deps, hdg, hchar⟩ := buildRankingGraph_char trueAns hnd a ha
  refine ⟨deps, hdg, hchar, ?_, ?_⟩
  · intro hmin
    rw [List.eq_nil_iff_forall_not_mem]
    intro x hx
    obtain ⟨b, hb, -, hlt, -, -⟩ := (hchar x).mp hx
    exact absurd (lt_of_le_of_lt (hmin b hb) hlt) (lt_irrefl _)
  · intro b hb hbr hx
    obtain ⟨b', hb', htag, hlt, -, -⟩ := (hchar b.tag).mp hx
    have : b' = b := List.inj_on_of_nodup_map hnd hb' hb htag
    rw [this, hbr] at hlt
    exact absurd hlt (lt_irrefl _)

/-- C4, witness: ranks A=1, B=2, C=2.  B's dependency list contains A (the
previous distinct rank) and not C (same rank). -/
theorem c4_witness :
    ∃ deps, dget (buildRankingGraph (rankSorted
      [⟨"A", none, 1, "A", none, [], none, none, "uA"⟩,
       ⟨"B", none, 2, "B", none, [], none, none, "uB"⟩,
       ⟨"C", none, 2, "C", none, [], none, none, "uC"⟩])) "B" = some deps ∧
      "A" ∈ deps ∧ "C" ∉ deps := by
  obtain ⟨deps, hdg, hchar, -, hsame⟩ := c4_ranking_graph
    [⟨"A", none, 1, "A", none, [], none, none, "uA"⟩,
     ⟨"B", none, 2, "B", none, [], none, none, "uB"⟩,
     ⟨"C", none, 2, "C", none, [], none, none, "uC"⟩]
    (by decide) ⟨"B", none, 2, "B", none, [], none, none, "uB"⟩ (by decide)
  refine ⟨deps, hdg, ?_, ?_⟩
  · exact (hchar "A").mpr ⟨⟨"A", none, 1, "A", none, [], none, none, "uA"⟩,
      by decide, rfl, by decide, by decide, by decide⟩
  · exact hsame ⟨"C", none, 2, "C", none, [], none, none, "uC"⟩ (by decide) rfl

lemma prepareTag_ok_spec (cfg : GradeConfig)
    (gi : Option String × Option (List String)) (st : PrepState)
    (a : RawAnswer) (st2 : PrepState)
    (h : prepareTag cfg gi st a = Except.ok st2) :
    st2.usedTags = st.usedTags ++ (if a.isCorrect then [a.tagAttr] else []) ∧
    st2.correctAnswers = st.correctAnswers ++
      (if a.isCorrect then [toAnswerData gi a] else []) ∧
    st2.incorrectAnswers = st.incorrectAnswers ++
      (if a.isCorrect then [] else [toAnswerData gi a]) ∧
    (a.isCorrect = true → a.tagAttr ∉ st.usedTags) := by
  unfold prepareTag at h
  by_cases h1 : (a.distractorFor.isSome && a.isCorrect) = true
  · rw [if_pos h1] at h; cases h
  rw [if_neg h1] at h
  by_cases h2 : (a.isCorrect && decide (a.tagAttr ∈ st.usedTags)) = true
  · rw [if_pos h2] at h; cases h
  rw [if_neg h2] at h
  by_cases h3 : (!cfg.checkIndentation && a.indentAttr.isSome) = true
  · rw [if_pos h3] at h; cases h
  rw [if_neg h3] at h
  dsimp only at h
  have hfresh : a.isCorrect = true → a.tagAttr ∉ st.usedTags := by
    intro hc hm
    exact h2 (by simp [hc, hm])
  cases hc : a.isCorrect
  · rw [hc] at h
    simp only [Bool.false_eq_true, if_false] at h
    obtain rfl := (Except.ok.injEq _ _).mp h
    simp [hc]
  · rw [hc] at h
    simp only [if_true] at h
    obtain rfl := (Except.ok.injEq _ _).mp h
    simp [hc, hfresh]

lemma foldlM_prepareTag_spec (cfg : GradeConfig)
    (gi : Option String × Option (List String)) :
    ∀ (answers : List RawAnswer) (st st2 : PrepState),
      answers.foldlM (prepareTag cfg gi) st = Except.ok st2 →
      st2.usedTags = st.usedTags ++ answers.filterMap
        (fun a => if a.isCorrect then some a.tagAttr else none) ∧
      st2.correctAnswers = st.correctAnswers ++ answers.filterMap
        (fun a => if a.isCorrect then some (toAnswerData gi a) else none) ∧
      st2.incorrectAnswers = st.incorrectAnswers ++ answers.filterMap
        (fun a => if a.isCorrect then none else some (toAnswerData gi a)) ∧
      (st.usedTags.Nodup → st2.usedTags.Nodup) := by
  intro answers
  induction answers with
  | nil =>
    intro st st2 h
    obtain rfl := (Except.ok.injEq _ _).mp h
    simp
  | cons a rest ih =>
    intro st st2 h
    rw [List.foldlM_cons] at h
    cases hstep : prepareTag cfg gi st a with
    | error e =>
      rw [hstep] at h
      exact absurd h (by simp [Bind.bind, Except.bind])
    | ok stMid =>
      rw [hstep] at h
      have h2 : rest.foldlM (prepareTag cfg gi) stMid = Except.ok st2 := by
        simpa [Bind.bind, Except.bind] using h
      obtain ⟨hu1, hc1, hi1, hfr⟩ := prepareTag_ok_spec cfg gi st a stMid hstep
      obtain ⟨hu2, hc2, hi2, hnd2⟩ := ih stMid st2 h2
      refine ⟨?_, ?_, ?_, ?_⟩
      · rw [hu2, hu1, List.filterMap_cons]
        cases hc : a.isCorrect <;> simp [hc]
      · rw [hc2, hc1, List.filterMap_cons]
        cases hc : a.isCorrect <;> simp [hc]
      · rw [hi2, hi1, List.filterMap_cons]
        cases hc : a.isCorrect <;> simp [hc]
      · intro hnd
        apply hnd2
        rw [hu1]
        cases hc : a.isCorrect
        · simpa using hnd
        · simp only [if_true]
          rw [List.nodup_append]
          exact ⟨hnd, List.nodup_singleton _,
            fun x hx hmem => (hfr hc)
              (by rwa [List.mem_singleton.mp hmem] at hx)⟩

lemma prepareChild_ok_spec (cfg : GradeConfig) (c : PrepChild)
    (st st2 : PrepState) (h : prepareChild cfg st c = Except.ok st2) :
    st2.usedTags = st.usedTags ++ rawCorrectTags c ∧
    st2.correctAnswers = st.correctAnswers ++ childCorrectADs c ∧
    st2.incorrectAnswers = st.incorrectAnswers ++ childIncorrectADs c ∧
    (st.usedTags.Nodup → st2.usedTags.Nodup) := by
  cases c with
  | answer a =>
    obtain ⟨hu, hc, hi, hfr⟩ := prepareTag_ok_spec cfg (none, none) st a st2 h
    refine ⟨?_, ?_, ?_, ?_⟩
    · rw [hu]; cases hco : a.isCorrect <;>
        simp [rawCorrectTags, hco]
    · rw [hc]; cases hco : a.isCorrect <;>
        simp [childCorrectADs, childAnswers, childGroupInfo, hco]
    · rw [hi]; cases hco : a.isCorrect <;>
        simp [childIncorrectADs, childAnswers, childGroupInfo, hco]
    · intro hnd
      rw [hu]
      cases hco : a.isCorrect
      · simpa using hnd
      · simp only [if_true]
        rw [List.nodup_append]
        exact ⟨hnd, List.nodup_singleton _,
          fun x hx hmem => (hfr hco)
            (by rwa [List.mem_singleton.mp hmem] at hx)⟩
  | blockGroup gtag gdepends answers =>
    simp only [prepareChild] at h
    by_cases h1 : cfg.gradingMethod ≠ GradingMethodType.DAG
    · rw [if_pos h1] at h; cases h
    rw [if_neg h1] at h
    by_cases h2 : gtag ∈ st.usedTags
    · rw [if_pos h2] at h; cases h
    rw [if_neg h2] at h
    obtain ⟨hu, hc, hi, hnd⟩ := foldlM_prepareTag_spec cfg (some gtag, some gdepends)
      answers ⟨st.usedTags ++ [gtag], st.correctAnswers, st.incorrectAnswers⟩ st2 h
    refine ⟨?_, ?_, ?_, ?_⟩
    · rw [hu]
      simp [rawCorrectTags]
    · rw [hc]
      simp [childCorrectADs, childAnswers, childGroupInfo]
    · rw [hi]
      simp [childIncorrectADs, childAnswers, childGroupInfo]
    · intro hnd0
      apply hnd
      show (st.usedTags ++ [gtag]).Nodup
      rw [List.nodup_append]
      exact ⟨hnd0, List.nodup_singleton _,
        fun x hx hmem => h2 (by rwa [List.mem_singleton.mp hmem] at hx)⟩

lemma foldlM_prepareChild_spec (cfg : GradeConfig) :
    ∀ (children : List PrepChild) (st st2 : PrepState),
      children.foldlM (prepareChild cfg) st = Except.ok st2 →
      st2.usedTags = st.usedTags ++ children.flatMap rawCorrectTags ∧
      st2.correctAnswers = st.correctAnswers ++ children.flatMap childCorrectADs ∧
      st2.incorrectAnswers = st.incorrectAnswers ++ children.flatMap childIncorrectADs ∧
      (st.usedTags.Nodup → st2.usedTags.Nodup) := by
  intro children
  induction children with
  | nil =>
    intro st st2 h
    obtain rfl := (Except.ok.injEq _ _).mp h
    simp
  | cons c rest ih =>
    intro st st2 h
    rw [List.foldlM_cons] at h
    cases hstep : prepareChild cfg st c with
    | error e =>
      rw [hstep] at h
      exact absurd h (by simp [Bind.bind, Except.bind])
    | ok stMid =>
      rw [hstep] at h
      have h2 : rest.foldlM (prepareChild cfg) stMid = Except.ok st2 := by
        simpa [Bind.bind, Except.bind] using h
      obtain ⟨hu1, hc1, hi1, hnd1⟩ := prepareChild_ok_spec cfg c st stMid hstep
      obtain ⟨hu2, hc2, hi2, hnd2⟩ := ih stMid st2 h2
      exact ⟨by rw [hu2, hu1, List.flatMap_cons, List.append_assoc],
        by rw [hc2, hc1, List.flatMap_cons, List.append_assoc],
        by rw [hi2, hi1, List.flatMap_cons, List.append_assoc],
        fun hnd => hnd2 (hnd1 hnd)⟩

lemma prepareCore_ok_spec (cfg : GradeConfig) (children : List PrepChild)
    (stored : List AnswerData)
    (h : prepareCore cfg children = Except.ok stored) :
    ∃ st, children.foldlM (prepareChild cfg) ⟨[], [], []⟩ = Except.ok st ∧
      ¬(cfg.gradingMethod ≠ GradingMethodType.EXTERNAL ∧ st.correctAnswers = []) ∧
      (∀ d ∈ (st.correctAnswers ++ st.incorrectAnswers).filterMap (fun b =>
        match b.distractorFor with
        | some d => if d = "" then none else some d
        | none => none), d ∈ (st.correctAnswers ++ st.incorrectAnswers).map (·.tag)) ∧
      ∃ selfOut, grade cfg (st.correctAnswers.map toSubEntry) st.correctAnswers =
          Except.ok selfOut ∧
        ((selfOut.result.score = 1 ∧ stored = st.correctAnswers) ∨
         (selfOut.result.score ≠ 1 ∧
          solveProblem st.correctAnswers cfg.gradingMethod = Except.ok stored)) := by
  unfold prepareCore at h
  cases hr : children.foldlM (prepareChild cfg) (⟨[], [], []⟩ : PrepState) with
  | error e =>
    rw [hr] at h
    exact absurd h (by simp [Bind.bind, Except.bind])
  | ok st =>
    rw [hr] at h
    refine ⟨st, rfl, ?_, ?_, ?_⟩
    all_goals
      simp only [Bind.bind, Except.bind] at h
      split at h
      try exact absurd h (by simp [throw, throwThe, MonadExceptOf.throw])
    all_goals
      rename_i hcond1
      split at h
      try exact absurd h (by simp [throw, throwThe, MonadExceptOf.throw])
    all_goals rename_i hcond2
    · exact hcond1
    · exact not_not.mp hcond2
    · cases hs : grade cfg (st.correctAnswers.map toSubEntry) st.correctAnswers with
      | error e2 =>
        rw [hs] at h
        exact absurd h (by simp)
      | ok selfOut =>
        rw [hs] at h
        simp only [Except.bind] at h
        refine ⟨selfOut, rfl, ?_⟩
        split at h
        · rename_i hne
          exact Or.inr ⟨hne, h⟩
        · rename_i hne
          push_neg at hne
          have h2 : st.correctAnswers = stored := by
            simpa [pure, Except.pure] using h
          exact Or.inl ⟨hne, h2.symm⟩

/-- C9, counterexample: `prepare` does not abort on every duplicated tag nor
on every unresolvable `distractor-for`.  Here two incorrect fragments share
the tag "T" (only correct fragments and groups enter `used_tags`), and a
third fragment declares `distractor-for="T"`, which resolves to the tag of an
incorrect fragment, not of a correct one (the only correct tag is "A");
preparation still succeeds. -/
theorem c9_counterexample :
    (prepareCore (⟨GradingMethodType.DAG, false, FeedbackType.NONE, 1,
        PartialCreditType.LCS⟩ : GradeConfig)
      [PrepChild.answer ⟨true, none, "A", -1, none, "A", [], "uA"⟩,
       PrepChild.answer ⟨false, none, "D1", -1, none, "T", [], "uD1"⟩,
       PrepChild.answer ⟨false, none, "D2", -1, none, "T", [], "uD2"⟩,
       PrepChild.answer ⟨false, none, "E", -1, some "T", "E", [], "uE"⟩]).isOk
      = true ∧ ("T" : String) ≠ "A" := by
  exact ⟨by with_unfolding_all decide, by decide⟩

/-- C9 amended: preparation aborts whenever two CORRECT fragments or groups
share a tag (incorrect fragments are not tracked), and a successful
preparation guarantees that every nonempty `distractor-for` reference
resolves to the tag of SOME prepared block — correct or incorrect (under the
default max-incorrect, all incorrect blocks are kept); on abort no instance
data is produced. -/
theorem c9_amended (cfg : GradeConfig) (children : List PrepChild) :
    (¬ (children.flatMap rawCorrectTags).Nodup →
      ∃ msg, prepareCore cfg children = Except.error msg) ∧
    (∀ stored, prepareCore cfg children = Except.ok stored →
      ∀ c ∈ children, ∀ a ∈ childAnswers c, ∀ d, a.distractorFor = some d →
        d ≠ "" → ∃ c2 ∈ children, ∃ b ∈ childAnswers c2, b.tagAttr = d) := by
  constructor
  · intro hdup
    cases hr : children.foldlM (prepareChild cfg) (⟨[], [], []⟩ : PrepState) with
    | error e =>
      refine ⟨e, ?_⟩
      unfold prepareCore
      rw [hr]
      rfl
    | ok st =>
      obtain ⟨hu, -, -, hnd⟩ := foldlM_prepareChild_spec cfg children ⟨[], [], []⟩ st hr
      exfalso
      apply hdup
      have : st.usedTags.Nodup := hnd (by simp)
      rwa [hu, List.nil_append] at this
  · intro stored hok c hc a ha d hd hdne
    obtain ⟨st, hr, -, hsub, -⟩ := prepareCore_ok_spec cfg children stored hok
    obtain ⟨-, hcor, hinc, -⟩ := foldlM_prepareChild_spec cfg children ⟨[], [], []⟩ st hr
    rw [List.nil_append] at hcor hinc
    -- the block built from a is among the prepared blocks
    have hmem : toAnswerData (childGroupInfo c) a ∈
        st.correctAnswers ++ st.incorrectAnswers := by
      rw [hcor, hinc]
      cases hco : a.isCorrect
      · refine List.mem_append.mpr (Or.inr ?_)
        exact List.mem_flatMap.mpr ⟨c, hc, List.mem_filterMap.mpr
          ⟨a, ha, by rw [hco]; rfl⟩⟩
      · refine List.mem_append.mpr (Or.inl ?_)
        exact List.mem_flatMap.mpr ⟨c, hc, List.mem_filterMap.mpr
          ⟨a, ha, by rw [hco]; rfl⟩⟩
    -- so d is among the collected distractor references
    have hdmem : d ∈ (st.correctAnswers ++ st.incorrectAnswers).filterMap (fun b =>
        match b.distractorFor with
        | some d => if d = "" then none else some d
        | none => none) := by
      refine List.mem_filterMap.mpr ⟨toAnswerData (childGroupInfo c) a, hmem, ?_⟩
      show (match a.distractorFor with
        | some d => if d = "" then none else some d
        | none => none) = some d
      rw [hd]
      show (if d = "" then (none : Option String) else some d) = some d
      rw [if_neg hdne]
    have htag := hsub d hdmem
    obtain ⟨ad, hadmem, hadtag⟩ := List.mem_map.mp htag
    rw [hcor, hinc] at hadmem
    rcases List.mem_append.mp hadmem with hmc | hmi
    · obtain ⟨c2, hc2, hin⟩ := List.mem_flatMap.mp hmc
      obtain ⟨b, hb, hbe⟩ := List.mem_filterMap.mp hin
      refine ⟨c2, hc2, b, hb, ?_⟩
      cases hbc : b.isCorrect
      · rw [hbc] at hbe; cases hbe
      · rw [hbc] at hbe
        simp only [if_true] at hbe
        have : ad.tag = b.tagAttr := by rw [← (Option.some.injEq _ _).mp hbe]; rfl
        rw [← this, hadtag]
    · obtain ⟨c2, hc2, hin⟩ := List.mem_flatMap.mp hmi
      obtain ⟨b, hb, hbe⟩ := List.mem_filterMap.mp hin
      refine ⟨c2, hc2, b, hb, ?_⟩
      cases hbc : b.isCorrect
      · rw [hbc] at hbe
        simp only [Bool.false_eq_true, if_false] at hbe
        have : ad.tag = b.tagAttr := by rw [← (Option.some.injEq _ _).mp hbe]; rfl
        rw [← this, hadtag]
      · rw [hbc] at hbe; cases hbe

/-- C9 amended, witness: two correct fragments sharing the tag "A" abort
preparation. -/
theorem c9_amended_witness :
    ∃ msg, prepareCore (⟨GradingMethodType.DAG, false, FeedbackType.NONE, 1,
        PartialCreditType.LCS⟩ : GradeConfig)
      [PrepChild.answer ⟨true, none, "x", -1, none, "A", [], "u1"⟩,
       PrepChild.answer ⟨true, none, "y", -1, none, "A", [], "u2"⟩] =
      Except.error msg :=
  (c9_amended (⟨GradingMethodType.DAG, false, FeedbackType.NONE, 1,
      PartialCreditType.LCS⟩ : GradeConfig)
    [PrepChild.answer ⟨true, none, "x", -1, none, "A", [], "u1"⟩,
     PrepChild.answer ⟨true, none, "y", -1, none, "A", [], "u2"⟩]).1
    (by decide)

lemma rankLoopGo_dkeys (tT : List (String × Int)) (lines : Int → List String) :
    ∀ (tags : List String) (g : List (String × List String))
      (cur : List String) (pr : Option Int),
      tags.Nodup → (∀ t ∈ tags, t ∉ dkeys g) →
      dkeys (rankLoopGo tT lines g cur pr tags) = dkeys g ++ tags := by
  intro tags
  induction tags with
  | nil => intro g cur pr _ _; simp [rankLoopGo]
  | cons t ts ih =>
    intro g cur pr hnd hfr
    simp only [rankLoopGo]
    rw [ih _ _ _ (List.nodup_cons.mp hnd).2 ?fresh]
    · rw [dinsert_of_not_mem g t _ (hfr t (by simp)), dkeys_append]
      simp [dkeys]
    case fresh =>
      intro x hx
      rw [dinsert_of_not_mem g t _ (hfr t (by simp)), dkeys_append]
      intro hmem
      rcases List.mem_append.mp hmem with hm | hm
      · exact hfr x (by simp [hx]) hm
      · have hxt : x = t := by simpa [dkeys] using hm
        exact (List.nodup_cons.mp hnd).1 (hxt ▸ hx)

lemma buildRankingGraph_dkeys (l : List AnswerData)
    (hnd : (l.map (·.tag)).Nodup) :
    dkeys (buildRankingGraph l) = l.map (·.tag) := by
  unfold buildRankingGraph
  rw [rankLoopGo_dkeys _ _ _ _ _ _ hnd (by simp [dkeys])]
  rfl

lemma fragmentTags_empty_B (G : List (String × List String)) :
    fragmentTags G [] = dkeys G := by
  unfold fragmentTags groupTagsOf
  simp

/-- The rank-graph characterization for an already-sorted list. -/
lemma buildRankingGraph_char_sorted (l : List AnswerData)
    (hsort : l.Pairwise (fun a b => a.ranking ≤ b.ranking))
    (hnd : (l.map (·.tag)).Nodup) (a : AnswerData) (ha : a ∈ l) :
    ∃ deps, dget (buildRankingGraph l) a.tag = some deps ∧
      ∀ x, x ∈ deps ↔ ∃ b ∈ l, b.tag = x ∧
        isPrevDistinctRank l b.ranking a.ranking := by
  have hmain := rankLoopGo_char l hsort hnd l [] [] [] none rfl rfl
    (by intro a0 ha0; cases ha0) ⟨rfl, rfl⟩ a ha
  obtain ⟨deps, hdg, hchar⟩ := hmain
  exact ⟨deps, by rw [buildRankingGraph]; exact hdg, hchar⟩

lemma lcsLenO_self : ∀ (sigma : List String),
    lcsLenO (sigma.map some) sigma = sigma.length := by
  intro sigma
  induction sigma with
  | nil => simp [lcsLenO]
  | cons a rest ih =>
    rw [List.map_cons]
    unfold lcsLenO
    rw [if_pos rfl, ih, List.length_cons]
    omega

lemma editDist_self (sigma : List String) :
    editDist (sigma.map some) sigma = 0 := by
  unfold editDist
  rw [lcsLenO_self, List.length_map]
  omega

lemma foldl_min_le_init {α : Type} (f : α → Nat) :
    ∀ (xs : List α) (b : Nat),
      xs.foldl (fun m y => min m (f y)) b ≤ b := by
  intro xs
  induction xs with
  | nil => intro b; exact le_refl b
  | cons x rest ih =>
    intro b
    rw [List.foldl_cons]
    exact le_trans (ih _) (min_le_left _ _)

lemma foldl_min_le {α : Type} (f : α → Nat) :
    ∀ (xs : List α) (b : Nat) (x : α), x ∈ xs →
      xs.foldl (fun m y => min m (f y)) b ≤ f x := by
  intro xs
  induction xs with
  | nil => intro b x hx; cases hx
  | cons y rest ih =>
    intro b x hx
    rw [List.foldl_cons]
    rcases List.mem_cons.mp hx with rfl | hxr
    · exact le_trans (foldl_min_le_init f rest _) (min_le_right _ _)
    · exact ih _ x hxr

lemma lcsPartialCredit_zero_of_valid (G : List (String × List String))
    (B : List (String × Option String)) (sigma : List String)
    (hperm : sigma.Perm (fragmentTags G B))
    (hvalid : gradeDagGo G B initState (sigma.map some) = sigma.length) :
    lcsPartialCredit (sigma.map some) G B = 0 := by
  have hmem : sigma ∈ validOrders G B := by
    unfold validOrders
    rw [List.mem_filter]
    exact ⟨List.mem_permutations.mpr hperm, by simp [hvalid]⟩
  have hle := foldl_min_le (editDist (sigma.map some)) (validOrders G B)
    ((sigma.map some).length + (fragmentTags G B).length) sigma hmem
  rw [editDist_self] at hle
  exact Nat.le_zero.mp (le_of_le_of_eq hle rfl)

lemma gate_self (trueAns : List AnswerData)
    (huuid : (trueAns.map (·.uuid)).Nodup) (a : AnswerData) (ha : a ∈ trueAns) :
    indentGateEntry (indentationsDict trueAns) (toSubEntry a) = toSubEntry a := by
  have hdict : indentationsDict trueAns =
      trueAns.map (fun a => (a.uuid, a.indent)) := by
    unfold indentationsDict
    have h := foldl_dinsert_eq_map (fun a : AnswerData => a.uuid)
      (fun a : AnswerData => a.indent) trueAns [] (by simp [dkeys]) huuid
    simpa using h
  have hlook : dget (indentationsDict trueAns) (toSubEntry a).uuid =
      some a.indent := by
    rw [hdict, dget_map_pairs (fun a : AnswerData => a.uuid)
      (fun a : AnswerData => a.indent) trueAns,
      find?_of_key_nodup (fun a : AnswerData => a.uuid) trueAns huuid a ha
        (toSubEntry a).uuid rfl]
    rfl
  unfold indentGateEntry
  rw [hlook]
  show (if (some a.indent).join ≠ some (-1) ∧
    (toSubEntry a).indent ≠ (some a.indent).join then _ else _) = _
  simp only [Option.join, Option.some_bind, id_eq]
  rw [if_neg]
  rintro ⟨-, h2⟩
  exact h2 rfl

lemma gatedStudent_self (cfg : GradeConfig) (trueAns : List AnswerData)
    (huuid : (trueAns.map (·.uuid)).Nodup) :
    gatedStudent cfg (trueAns.map toSubEntry) trueAns = trueAns.map toSubEntry := by
  unfold gatedStudent
  split
  · rw [List.map_map]
    apply List.map_congr_left
    intro a ha
    exact gate_self trueAns huuid a ha
  · rfl

lemma toSubEntry_mapM (l : List AnswerData) :
    (l.map toSubEntry).mapM (fun e => e.tagKey) =
      some (l.map (fun a => some a.tag)) := by
  induction l with
  | nil => rfl
  | cons a rest ih =>
    rw [List.map_cons, List.map_cons]
    rw [List.mapM_cons]
    rw [show (toSubEntry a).tagKey = some (some a.tag) from rfl]
    simp only [Option.bind_eq_bind, Option.some_bind, ih]
    rfl

/-- Walking any rank-sorted listing of the answers through the prefix walker,
against the ranking graph built from a (possibly different) sorted listing of
the same answers, validates every position. -/
lemma ranking_sorted_valid (l l2 : List AnswerData)
    (hsortl : l.Pairwise (fun a b => a.ranking ≤ b.ranking))
    (hndl : (l.map (·.tag)).Nodup)
    (hperm : l2.Perm l)
    (hsort2 : l2.Pairwise (fun a b => a.ranking ≤ b.ranking)) :
    ∀ (q p : List AnswerData) (s : List String),
      l2 = p ++ q → (∀ x, x ∈ s ↔ x ∈ p.map (·.tag)) →
      gradeDagGo (buildRankingGraph l) [] ⟨s, none⟩ ((q.map (·.tag)).map some) =
        q.length := by
  have hnd2 : (l2.map (·.tag)).Nodup := hndl.perm (hperm.map (·.tag)).symm
  intro q
  induction q with
  | nil => intro p s _ _; rfl
  | cons a q2 ih =>
    intro p s hl2 hs
    have hal2 : a ∈ l2 := by rw [hl2]; simp
    have hal : a ∈ l := hperm.mem_iff.mp hal2
    obtain ⟨deps, hdg, hchar⟩ := buildRankingGraph_char_sorted l hsortl hndl a hal
    have hpw := List.pairwise_append.mp (hl2 ▸ hsort2)
    have hanotp : a.tag ∉ p.map (·.tag) := by
      have hnd3 := hnd2
      rw [hl2, List.map_append, List.nodup_append] at hnd3
      exact fun hm => hnd3.2.2 hm (by simp)
    have hdeps_sat : ∀ d ∈ deps, d ∈ s := by
      intro d hd
      obtain ⟨b, hb, rfl, hlt, -, -⟩ := (hchar d).mp hd
      have hbl2 : b ∈ l2 := hperm.mem_iff.mpr hb
      rw [hl2] at hbl2
      rcases List.mem_append.mp hbl2 with hbp | hba
      · exact (hs b.tag).mpr (List.mem_map.mpr ⟨b, hbp, rfl⟩)
      · exfalso
        rcases List.mem_cons.mp hba with rfl | hbq
        · exact absurd hlt (lt_irrefl _)
        · have := (List.pairwise_cons.mp hpw.2.1).1 b hbq
          exact absurd (lt_of_le_of_lt this hlt) (lt_irrefl _)
    have hv : stepValid (buildRankingGraph l) [] ⟨s, none⟩ (some a.tag) = true := by
      unfold stepValid
      simp only [Bool.and_eq_true, decide_eq_true_eq]
      refine ⟨⟨⟨?_, ?_⟩, ?_⟩, trivial⟩
      · rw [fragmentTags_empty_B, buildRankingGraph_dkeys l hndl]
        exact List.mem_map.mpr ⟨a, hal, rfl⟩
      · rw [Bool.not_eq_true', decide_eq_false_iff_not]
        exact fun hm => hanotp ((hs a.tag).mp hm)
      · rw [List.all_eq_true]
        intro d hd
        have hdin : d ∈ deps := by
          unfold effectiveDeps at hd
          rw [hdg] at hd
          simpa [dget] using hd
        unfold depSatisfied
        rw [if_neg (by simp [groupTagsOf])]
        simpa using hdeps_sat d hdin
    rw [List.map_cons, List.map_cons]
    unfold gradeDagGo
    rw [if_pos hv]
    have hupd : stepUpdate [] ⟨s, none⟩ a.tag = ⟨a.tag :: s, none⟩ := rfl
    rw [hupd, ih (p ++ [a]) (a.tag :: s) (by rw [hl2, List.append_assoc]; rfl)
      (by
        intro x
        rw [List.mem_cons, hs x, List.map_append]
        simp [or_comm])]
    rw [List.length_cons]
    omega

lemma dget_none_of_not_mem {α : Type} (d : List (String × α)) (k : String)
    (h : k ∉ dkeys d) : dget d k = none := by
  unfold dget
  rw [List.find?_eq_none.mpr]
  · rfl
  · intro p hp
    simp only [decide_eq_true_eq]
    intro he
    exact h (List.mem_map.mpr ⟨p, hp, he⟩)

lemma dkeys_cons {α : Type} (p : String × α) (rest : List (String × α)) :
    dkeys (p :: rest) = p.1 :: dkeys rest := rfl

lemma dget_of_mem_nodup {α : Type} :
    ∀ (d : List (String × α)), (dkeys d).Nodup →
      ∀ (k : String) (v : α), (k, v) ∈ d → dget d k = some v := by
  intro d
  induction d with
  | nil => intro _ k v hm; cases hm
  | cons p rest ih =>
    intro hnd k v hm
    rw [dkeys_cons] at hnd
    obtain ⟨h1, h2⟩ := List.nodup_cons.mp hnd
    rw [show p = (p.1, p.2) from rfl, dget_cons]
    rcases List.mem_cons.mp hm with he | hm2
    · rw [if_pos (congrArg Prod.fst he).symm, ← he]
    · rw [if_neg, ih h2 k v hm2]
      intro he
      apply h1
      rw [he]
      exact (mem_dkeys rest k).mpr ⟨v, hm2⟩

lemma find?_isSome_of_mem {α : Type} (d : List (String × α)) (k : String)
    (h : k ∈ dkeys d) : (d.find? (fun p => p.1 = k)).isSome = true := by
  induction d with
  | nil => exact absurd h (by simp [dkeys])
  | cons p rest ih =>
    rw [List.find?_cons]
    by_cases hp : p.1 = k
    · simp [hp]
    · simp only [hp, decide_False]
      apply ih
      rcases List.mem_map.mp h with ⟨q, hq, he⟩
      rcases List.mem_cons.mp hq with rfl | hq2
      · exact absurd he hp
      · exact List.mem_map.mpr ⟨q, hq2, he⟩

lemma dinsert_mem_case {α : Type} (d : List (String × α)) (k : String) (v : α)
    (h : k ∈ dkeys d) :
    dinsert d k v = d.map (fun p => if p.1 = k then (k, v) else p) := by
  unfold dinsert
  rw [if_pos (find?_isSome_of_mem d k h)]

lemma dget_map_update {α : Type} (k : String) (v : α) :
    ∀ (d : List (String × α)), (dkeys d).Nodup → ∀ (k2 : String),
      dget (d.map (fun p => if p.1 = k then (k, v) else p)) k2 =
        if k2 = k ∧ k ∈ dkeys d then some v else dget d k2 := by
  intro d
  induction d with
  | nil =>
    intro _ k2
    rw [if_neg (by simp [dkeys])]
    rfl
  | cons p rest ih =>
    intro hnd k2
    rw [dkeys_cons] at hnd
    obtain ⟨hhead, hnd2⟩ := List.nodup_cons.mp hnd
    rw [List.map_cons]
    by_cases h0 : p.1 = k
    · have hmapid : rest.map (fun q => if q.1 = k then (k, v) else q) = rest := by
        have h1 : rest.map (fun q => if q.1 = k then (k, v) else q) = rest.map id := by
          apply List.map_congr_left
          intro q hq
          rw [if_neg, id]
          intro he
          apply hhead
          rw [h0]
          exact (mem_dkeys rest k).mpr ⟨q.2, by rw [← he]; exact hq⟩
        rw [h1, List.map_id]
      rw [if_pos h0, hmapid, dget_cons]
      by_cases hk2 : k2 = k
      · subst hk2
        rw [if_pos rfl, if_pos ⟨rfl, by
          rw [dkeys_cons]
          exact List.mem_cons.mpr (Or.inl h0.symm)⟩]
      · rw [if_neg (fun he => hk2 he.symm), if_neg (fun hc => hk2 hc.1),
          show p = (p.1, p.2) from rfl, dget_cons,
          if_neg (fun he => hk2 (he.symm.trans h0))]
    · rw [if_neg h0, show p = (p.1, p.2) from rfl, dget_cons, dget_cons,
        ih hnd2 k2]
      have hmemiff : k ∈ dkeys ((p.1, p.2) :: rest) ↔ k ∈ dkeys rest := by
        rw [dkeys_cons]
        constructor
        · intro h
          rcases List.mem_cons.mp h with he | h2
          · exact absurd he.symm h0
          · exact h2
        · exact fun h => List.mem_cons.mpr (Or.inr h)
      by_cases hp : p.1 = k2
      · have hcneg : ¬(k2 = k ∧ k ∈ dkeys ((p.1, p.2) :: rest)) :=
          fun hc => h0 (hp.trans hc.1)
        rw [if_pos hp, if_neg hcneg, if_pos hp]
      · rw [if_neg hp]
        by_cases hc : k2 = k ∧ k ∈ dkeys rest
        · rw [if_pos hc, if_pos ⟨hc.1, hmemiff.mpr hc.2⟩]
        · rw [if_neg hc, if_neg (fun hc2 => hc ⟨hc2.1, hmemiff.mp hc2.2⟩),
            if_neg hp]

lemma dget_dinsert {α : Type} (d : List (String × α)) (k : String) (v : α)
    (hnd : (dkeys d).Nodup) (k2 : String) :
    dget (dinsert d k v) k2 = if k2 = k then some v else dget d k2 := by
  by_cases hm : k ∈ dkeys d
  · rw [dinsert_mem_case d k v hm, dget_map_update k v d hnd k2]
    by_cases hk2 : k2 = k
    · rw [if_pos ⟨hk2, hm⟩, if_pos hk2]
    · rw [if_neg (fun hc => hk2 hc.1), if_neg hk2]
  · rw [dinsert_of_not_mem d k v hm]
    by_cases hk2 : k2 = k
    · subst hk2
      rw [dget_append_of_not_mem d _ _ hm, if_pos rfl]
      show dget (((k2, v) : String × α) :: []) k2 = some v
      rw [dget_cons, if_pos rfl]
    · rw [if_neg hk2]
      by_cases hk2m : k2 ∈ dkeys d
      · rw [dget_append_of_mem d _ _ hk2m]
      · rw [dget_append_of_not_mem d _ _ hk2m,
          dget_none_of_not_mem d k2 hk2m]
        show dget (((k, v) : String × α) :: []) k2 = none
        rw [dget_cons, if_neg (fun he => hk2 he.symm)]
        rfl

lemma dkeys_dinsert {α : Type} (d : List (String × α)) (k : String) (v : α) :
    dkeys (dinsert d k v) = if k ∈ dkeys d then dkeys d else dkeys d ++ [k] := by
  by_cases hm : k ∈ dkeys d
  · rw [dinsert_mem_case d k v hm, if_pos hm]
    unfold dkeys
    rw [List.map_map]
    apply List.map_congr_left
    intro p hp
    by_cases hp1 : p.1 = k
    · simp [hp1]
    · simp [hp1]
  · rw [dinsert_of_not_mem d k v hm, if_neg hm, dkeys_append]
    rfl

lemma dkeys_dinsert_nodup {α : Type} (d : List (String × α)) (k : String)
    (v : α) (hnd : (dkeys d).Nodup) : (dkeys (dinsert d k v)).Nodup := by
  rw [dkeys_dinsert]
  by_cases hm : k ∈ dkeys d
  · rwa [if_pos hm]
  · rw [if_neg hm, List.nodup_append]
    exact ⟨hnd, List.nodup_singleton _,
      fun x hx hmem => hm (by rwa [List.mem_singleton.mp hmem] at hx)⟩

/-- Characterization of a left fold of dict insertions whose values are a
function of the key alone. -/
lemma foldl_dinsert_char {α β : Type} (key : α → String) (val : α → β)
    (vOf : String → β) :
    ∀ (l : List α) (d : List (String × β)), (dkeys d).Nodup →
      (∀ a ∈ l, val a = vOf (key a)) →
      ((dkeys (l.foldl (fun d a => dinsert d (key a) (val a)) d)).Nodup ∧
       (∀ k, k ∈ dkeys (l.foldl (fun d a => dinsert d (key a) (val a)) d) ↔
         k ∈ dkeys d ∨ ∃ a ∈ l, key a = k) ∧
       (∀ k, dget (l.foldl (fun d a => dinsert d (key a) (val a)) d) k =
         if ∃ a ∈ l, key a = k then some (vOf k) else dget d k)) := by
  intro l
  induction l with
  | nil =>
    intro d hnd _
    refine ⟨hnd, fun k => ?_, fun k => ?_⟩
    · simp
    · rw [if_neg (by simp)]
      rfl
  | cons a rest ih =>
    intro d hnd hvals
    rw [List.foldl_cons]
    have hnd2 : (dkeys (dinsert d (key a) (val a))).Nodup :=
      dkeys_dinsert_nodup d (key a) (val a) hnd
    have hvals2 : ∀ b ∈ rest, val b = vOf (key b) :=
      fun b hb => hvals b (List.mem_cons.mpr (Or.inr hb))
    obtain ⟨ihnd, ihmem, ihget⟩ := ih (dinsert d (key a) (val a)) hnd2 hvals2
    have hdmem : ∀ k, k ∈ dkeys (dinsert d (key a) (val a)) ↔
        k ∈ dkeys d ∨ k = key a := by
      intro k
      rw [dkeys_dinsert]
      by_cases hm : key a ∈ dkeys d
      · rw [if_pos hm]
        exact ⟨Or.inl, fun h => h.elim id (fun he => he ▸ hm)⟩
      · rw [if_neg hm, List.mem_append, List.mem_singleton]
    refine ⟨ihnd, fun k => ?_, fun k => ?_⟩
    · rw [ihmem k, hdmem k]
      constructor
      · rintro ((h | h) | ⟨b, hb, he⟩)
        · exact Or.inl h
        · exact Or.inr ⟨a, List.mem_cons.mpr (Or.inl rfl), h.symm⟩
        · exact Or.inr ⟨b, List.mem_cons.mpr (Or.inr hb), he⟩
      · rintro (h | ⟨b, hb, he⟩)
        · exact Or.inl (Or.inl h)
        · rcases List.mem_cons.mp hb with rfl | hb2
          · exact Or.inl (Or.inr he.symm)
          · exact Or.inr ⟨b, hb2, he⟩
    · rw [ihget k]
      by_cases h1 : ∃ b ∈ rest, key b = k
      · obtain ⟨b, hb, he⟩ := h1
        rw [if_pos ⟨b, hb, he⟩, if_pos ⟨b, List.mem_cons.mpr (Or.inr hb), he⟩]
      · rw [if_neg h1, dget_dinsert d (key a) (val a) hnd k]
        by_cases h2 : key a = k
        · rw [if_pos h2.symm, hvals a (List.mem_cons.mpr (Or.inl rfl)), h2,
            if_pos ⟨a, List.mem_cons.mpr (Or.inl rfl), h2⟩]
        · rw [if_neg (fun he => h2 he.symm), if_neg]
          rintro ⟨b, hb, he⟩
          rcases List.mem_cons.mp hb with rfl | hb2
          · exact h2 he
          · exact h1 ⟨b, hb2, he⟩

lemma dget_map_pairs_some_iff {α β : Type} (key : α → String) (val : α → β)
    (l : List α) (hnd : (l.map key).Nodup) (k : String) (v : β) :
    dget (l.map (fun a => (key a, val a))) k = some v ↔
      ∃ a ∈ l, key a = k ∧ val a = v := by
  rw [dget_map_pairs key val l k]
  constructor
  · intro h
    obtain ⟨a, ha, hva⟩ := Option.map_eq_some'.mp h
    exact ⟨a, List.mem_of_find?_eq_some ha, by simpa using List.find?_some ha, hva⟩
  · rintro ⟨a, ha, hk, hv⟩
    rw [find?_of_key_nodup key l hnd a ha k hk]
    simp [hv]

lemma dget_map_pairs_none_iff {α β : Type} (key : α → String) (val : α → β)
    (l : List α) (k : String) :
    dget (l.map (fun a => (key a, val a))) k = none ↔ ∀ a ∈ l, key a ≠ k := by
  rw [dget_map_pairs key val l k, Option.map_eq_none', List.find?_eq_none]
  constructor <;> intro h a ha <;> simpa using h a ha

lemma dget_map_pairs_perm {α β : Type} (key : α → String) (val : α → β)
    (l1 l2 : List α) (hp : l1.Perm l2) (hnd : (l1.map key).Nodup) (k : String) :
    dget (l1.map (fun a => (key a, val a))) k =
      dget (l2.map (fun a => (key a, val a))) k := by
  have hnd2 : (l2.map key).Nodup := hnd.perm (hp.map key)
  cases h : dget (l1.map (fun a => (key a, val a))) k with
  | none =>
    rw [eq_comm, dget_map_pairs_none_iff]
    intro a ha
    exact (dget_map_pairs_none_iff key val l1 k).mp h a (hp.mem_iff.mpr ha)
  | some v =>
    rw [eq_comm]
    obtain ⟨a, ha, hk, hv⟩ := (dget_map_pairs_some_iff key val l1 hnd k v).mp h
    exact (dget_map_pairs_some_iff key val l2 hnd2 k v).mpr
      ⟨a, hp.mem_iff.mp ha, hk, hv⟩

lemma gdepOf_spec (l : List AnswerData)
    (hsame : ∀ a1 ∈ l, ∀ a2 ∈ l, a1.groupTag.isSome = true →
      a1.groupTag = a2.groupTag → a1.groupDepends = a2.groupDepends)
    (a : AnswerData) (ha : a ∈ l) (hgd : a.groupDepends.isSome = true)
    (hgt : a.groupTag.isSome = true) :
    a.groupDepends.getD [] = gdepOf l (a.groupTag.getD "") := by
  obtain ⟨gt, hgte⟩ := Option.isSome_iff_exists.mp hgt
  rw [hgte, Option.getD_some]
  have hpa : (decide (a.groupTag = some gt) && a.groupDepends.isSome) = true := by
    rw [hgte]
    simp [hgd]
  have hs : (l.find? (fun b => decide (b.groupTag = some gt) &&
      b.groupDepends.isSome)).isSome = true := List.find?_isSome.mpr ⟨a, ha, hpa⟩
  obtain ⟨b, hb⟩ := Option.isSome_iff_exists.mp hs
  have hbmem := List.mem_of_find?_eq_some hb
  have hpb := List.find?_some hb
  rw [Bool.and_eq_true, decide_eq_true_eq] at hpb
  have heq : a.groupDepends = b.groupDepends :=
    hsame a ha b hbmem hgt (hgte.trans hpb.1.symm)
  unfold gdepOf
  rw [hb, Option.some_bind, heq]

lemma groupDependsDict_char (l : List AnswerData) (vOf : String → List String)
    (hvOf : ∀ a ∈ l, (a.groupDepends.isSome && a.groupTag.isSome) = true →
      a.groupDepends.getD [] = vOf (a.groupTag.getD "")) :
    (dkeys (groupDependsDict l)).Nodup ∧
    (∀ k, k ∈ dkeys (groupDependsDict l) ↔
      ∃ a ∈ l, (a.groupDepends.isSome && a.groupTag.isSome) = true ∧
        a.groupTag.getD "" = k) ∧
    (∀ k, dget (groupDependsDict l) k =
      if ∃ a ∈ l, (a.groupDepends.isSome && a.groupTag.isSome) = true ∧
          a.groupTag.getD "" = k
      then some (vOf k) else none) ∧
    (∀ p ∈ groupDependsDict l, p.2 = vOf p.1) := by
  have hvOf2 : ∀ a ∈ l.filter (fun a => a.groupDepends.isSome && a.groupTag.isSome),
      a.groupDepends.getD [] = vOf (a.groupTag.getD "") := fun a ha =>
    hvOf a (List.mem_filter.mp ha).1 (List.mem_filter.mp ha).2
  have hC := foldl_dinsert_char (fun a : AnswerData => a.groupTag.getD "")
    (fun a : AnswerData => a.groupDepends.getD []) vOf
    (l.filter (fun a => a.groupDepends.isSome && a.groupTag.isSome)) []
    (by simp [dkeys]) hvOf2
  have hnd : (dkeys (groupDependsDict l)).Nodup := hC.1
  have hmemF : ∀ k, k ∈ dkeys (groupDependsDict l) ↔
      k ∈ dkeys ([] : List (String × List String)) ∨
      ∃ a ∈ l.filter (fun a => a.groupDepends.isSome && a.groupTag.isSome),
        a.groupTag.getD "" = k := hC.2.1
  have hiff : ∀ k,
      (∃ a ∈ l.filter (fun a => a.groupDepends.isSome && a.groupTag.isSome),
        a.groupTag.getD "" = k) ↔
      (∃ a ∈ l, (a.groupDepends.isSome && a.groupTag.isSome) = true ∧
        a.groupTag.getD "" = k) := by
    intro k
    constructor
    · rintro ⟨a, ha, he⟩
      exact ⟨a, (List.mem_filter.mp ha).1, (List.mem_filter.mp ha).2, he⟩
    · rintro ⟨a, h1, h2, he⟩
      exact ⟨a, List.mem_filter.mpr ⟨h1, h2⟩, he⟩
  refine ⟨hnd, fun k => ?_, fun k => ?_, ?_⟩
  · rw [hmemF k, hiff k]
    simp [dkeys]
  · have h := hC.2.2 k
    simp only [hiff] at h
    rw [dget_nil] at h
    exact h
  · intro p hp
    have hm : dget (groupDependsDict l) p.1 = some p.2 :=
      dget_of_mem_nodup (groupDependsDict l) hnd p.1 p.2 hp
    have h := hC.2.2 p.1
    simp only [hiff] at h
    rw [dget_nil] at h
    have hm2 : (if ∃ a ∈ l, (a.groupDepends.isSome && a.groupTag.isSome) = true ∧
        a.groupTag.getD "" = p.1 then some (vOf p.1) else none) = some p.2 := by
      rw [← h]
      exact hm
    by_cases hc : ∃ a ∈ l, (a.groupDepends.isSome && a.groupTag.isSome) = true ∧
        a.groupTag.getD "" = p.1
    · rw [if_pos hc] at hm2
      exact ((Option.some.injEq _ _).mp hm2).symm
    · rw [if_neg hc] at hm2
      exact Option.noConfusion hm2

lemma extractDag_char (l : List AnswerData) (htags : (l.map (·.tag)).Nodup)
    (vOf : String → List String)
    (hvOf : ∀ a ∈ l, (a.groupDepends.isSome && a.groupTag.isSome) = true →
      a.groupDepends.getD [] = vOf (a.groupTag.getD "")) :
    (extractDag l).2 = l.map (fun a => (a.tag, a.groupTag)) ∧
    (∀ k, dget (extractDag l).1 k =
      if ∃ a ∈ l, (a.groupDepends.isSome && a.groupTag.isSome) = true ∧
          a.groupTag.getD "" = k
      then some (vOf k)
      else dget (l.map (fun a => (a.tag, a.depends))) k) := by
  obtain ⟨hgdnd, hgdmem, hgdget, hgdvals⟩ := groupDependsDict_char l vOf hvOf
  have hP : l.foldl (fun d a => dinsert d a.tag a.depends) [] =
      l.map (fun a => (a.tag, a.depends)) := by
    simpa using foldl_dinsert_eq_map (fun a : AnswerData => a.tag)
      (fun a : AnswerData => a.depends) l [] (by simp [dkeys]) htags
  have hB : (extractDag l).2 = l.map (fun a => (a.tag, a.groupTag)) := by
    show l.foldl (fun d a => dinsert d a.tag a.groupTag) [] = _
    simpa using foldl_dinsert_eq_map (fun a : AnswerData => a.tag)
      (fun a : AnswerData => a.groupTag) l [] (by simp [dkeys]) htags
  have hPnd : (dkeys (l.map (fun a => (a.tag, a.depends)))).Nodup := by
    have he : dkeys (l.map (fun a => (a.tag, a.depends))) = l.map (·.tag) := by
      simp [dkeys, List.map_map]
    rw [he]
    exact htags
  have hout := foldl_dinsert_char (fun p : String × List String => p.1)
    (fun p : String × List String => p.2) vOf (groupDependsDict l)
    (l.map (fun a => (a.tag, a.depends))) hPnd hgdvals
  have hE1 : (extractDag l).1 = (groupDependsDict l).foldl
      (fun d p => dinsert d p.1 p.2) (l.map (fun a => (a.tag, a.depends))) := by
    show (groupDependsDict l).foldl (fun d p => dinsert d p.1 p.2)
      (l.foldl (fun d a => dinsert d a.tag a.depends) []) = _
    rw [hP]
  have hget : ∀ k, dget (extractDag l).1 k =
      if ∃ p ∈ groupDependsDict l, p.1 = k then some (vOf k)
      else dget (l.map (fun a => (a.tag, a.depends))) k := by
    intro k
    rw [hE1]
    exact hout.2.2 k
  have hcond : ∀ k, (∃ p ∈ groupDependsDict l, p.1 = k) ↔
      ∃ a ∈ l, (a.groupDepends.isSome && a.groupTag.isSome) = true ∧
        a.groupTag.getD "" = k := by
    intro k
    constructor
    · rintro ⟨p, hp, rfl⟩
      exact (hgdmem p.1).mp ((mem_dkeys (groupDependsDict l) p.1).mpr ⟨p.2, hp⟩)
    · intro hc
      obtain ⟨v, hv⟩ := (mem_dkeys (groupDependsDict l) k).mp ((hgdmem k).mpr hc)
      exact ⟨(k, v), hv, rfl⟩
  refine ⟨hB, fun k => ?_⟩
  rw [hget k]
  by_cases hc : ∃ a ∈ l, (a.groupDepends.isSome && a.groupTag.isSome) = true ∧
      a.groupTag.getD "" = k
  · rw [if_pos ((hcond k).mpr hc), if_pos hc]
  · rw [if_neg (fun h => hc ((hcond k).mp h)), if_neg hc]

lemma extractDag_fragmentTags (l : List AnswerData)
    (htags : (l.map (·.tag)).Nodup)
    (hdisj : ∀ ad ∈ l, ∀ gt, ad.groupTag = some gt → gt ∉ l.map (·.tag))
    (vOf : String → List String)
    (hvOf : ∀ a ∈ l, (a.groupDepends.isSome && a.groupTag.isSome) = true →
      a.groupDepends.getD [] = vOf (a.groupTag.getD "")) :
    fragmentTags (extractDag l).1 (extractDag l).2 = l.map (·.tag) := by
  obtain ⟨hgdnd, hgdmem, hgdget, hgdvals⟩ := groupDependsDict_char l vOf hvOf
  have hP : l.foldl (fun d a => dinsert d a.tag a.depends) [] =
      l.map (fun a => (a.tag, a.depends)) := by
    simpa using foldl_dinsert_eq_map (fun a : AnswerData => a.tag)
      (fun a : AnswerData => a.depends) l [] (by simp [dkeys]) htags
  have hB : (extractDag l).2 = l.map (fun a => (a.tag, a.groupTag)) :=
    (extractDag_char l htags vOf hvOf).1
  have hPkeys : dkeys (l.map (fun a => (a.tag, a.depends))) = l.map (·.tag) := by
    simp [dkeys, List.map_map]
  have hfresh : ∀ p ∈ groupDependsDict l,
      p.1 ∉ dkeys (l.map (fun a => (a.tag, a.depends))) := by
    intro p hp
    rw [hPkeys]
    obtain ⟨a, ha, hpf, he⟩ :=
      (hgdmem p.1).mp ((mem_dkeys (groupDependsDict l) p.1).mpr ⟨p.2, hp⟩)
    rw [Bool.and_eq_true] at hpf
    obtain ⟨gt, hgt⟩ := Option.isSome_iff_exists.mp hpf.2
    have hgte : gt = p.1 := by
      rw [hgt] at he
      simpa using he
    subst hgte
    exact hdisj a ha p.1 hgt
  have happ : (groupDependsDict l).foldl (fun d p => dinsert d p.1 p.2)
      (l.map (fun a => (a.tag, a.depends))) =
      l.map (fun a => (a.tag, a.depends)) ++ groupDependsDict l := by
    simpa using foldl_dinsert_eq_map (fun p : String × List String => p.1)
      (fun p : String × List String => p.2) (groupDependsDict l)
      (l.map (fun a => (a.tag, a.depends))) hfresh hgdnd
  have hE1 : (extractDag l).1 =
      l.map (fun a => (a.tag, a.depends)) ++ groupDependsDict l := by
    show (groupDependsDict l).foldl (fun d p => dinsert d p.1 p.2)
      (l.foldl (fun d a => dinsert d a.tag a.depends) []) = _
    rw [hP, happ]
  have hgmem : ∀ g, g ∈ groupTagsOf (extractDag l).2 ↔
      ∃ a ∈ l, a.groupTag = some g := by
    intro g
    rw [hB]
    unfold groupTagsOf
    rw [List.mem_filterMap]
    constructor
    · rintro ⟨p, hp, hpe⟩
      obtain ⟨a, ha, rfl⟩ := List.mem_map.mp hp
      exact ⟨a, ha, hpe⟩
    · rintro ⟨a, ha, hae⟩
      exact ⟨(a.tag, a.groupTag), List.mem_map.mpr ⟨a, ha, rfl⟩, hae⟩
  unfold fragmentTags
  rw [hE1, dkeys_append, hPkeys, List.filter_append]
  have h1 : (l.map (·.tag)).filter
      (fun t => decide (t ∉ groupTagsOf (extractDag l).2)) = l.map (·.tag) := by
    apply List.filter_eq_self.mpr
    intro t ht
    rw [decide_eq_true_eq]
    intro hmem
    obtain ⟨a, ha, hae⟩ := (hgmem t).mp hmem
    exact hdisj a ha t hae ht
  have h2 : (dkeys (groupDependsDict l)).filter
      (fun t => decide (t ∉ groupTagsOf (extractDag l).2)) = [] := by
    apply List.filter_eq_nil_iff.mpr
    intro t ht hdec
    obtain ⟨a, ha, hpf, he⟩ := (hgdmem t).mp ht
    rw [Bool.and_eq_true] at hpf
    obtain ⟨gt, hgt⟩ := Option.isSome_iff_exists.mp hpf.2
    have hgte : gt = t := by
      rw [hgt] at he
      simpa using he
    subst hgte
    exact (of_decide_eq_true hdec) ((hgmem gt).mpr ⟨a, ha, hgt⟩)
  rw [h1, h2, List.append_nil]

lemma extractDag_dget_congr (l1 l2 : List AnswerData) (hp : l1.Perm l2)
    (htags : (l1.map (·.tag)).Nodup)
    (hsame : ∀ a1 ∈ l1, ∀ a2 ∈ l1, a1.groupTag.isSome = true →
      a1.groupTag = a2.groupTag → a1.groupDepends = a2.groupDepends) :
    (∀ k, dget (extractDag l1).1 k = dget (extractDag l2).1 k) ∧
    (∀ k, dget (extractDag l1).2 k = dget (extractDag l2).2 k) := by
  have htags2 : (l2.map (·.tag)).Nodup := htags.perm (hp.map (·.tag))
  have hvOf1 : ∀ a ∈ l1, (a.groupDepends.isSome && a.groupTag.isSome) = true →
      a.groupDepends.getD [] = gdepOf l1 (a.groupTag.getD "") := by
    intro a ha hpf
    rw [Bool.and_eq_true] at hpf
    exact gdepOf_spec l1 hsame a ha hpf.1 hpf.2
  have hvOf2 : ∀ a ∈ l2, (a.groupDepends.isSome && a.groupTag.isSome) = true →
      a.groupDepends.getD [] = gdepOf l1 (a.groupTag.getD "") :=
    fun a ha hpf => hvOf1 a (hp.mem_iff.mpr ha) hpf
  obtain ⟨hB1, hG1⟩ := extractDag_char l1 htags (gdepOf l1) hvOf1
  obtain ⟨hB2, hG2⟩ := extractDag_char l2 htags2 (gdepOf l1) hvOf2
  constructor
  · intro k
    rw [hG1 k, hG2 k]
    have hcond : (∃ a ∈ l1, (a.groupDepends.isSome && a.groupTag.isSome) = true ∧
        a.groupTag.getD "" = k) ↔
        ∃ a ∈ l2, (a.groupDepends.isSome && a.groupTag.isSome) = true ∧
          a.groupTag.getD "" = k := by
      constructor
      · rintro ⟨a, ha, h⟩
        exact ⟨a, hp.mem_iff.mp ha, h⟩
      · rintro ⟨a, ha, h⟩
        exact ⟨a, hp.mem_iff.mpr ha, h⟩
    by_cases hc : ∃ a ∈ l1, (a.groupDepends.isSome && a.groupTag.isSome) = true ∧
        a.groupTag.getD "" = k
    · rw [if_pos hc, if_pos (hcond.mp hc)]
    · rw [if_neg hc, if_neg (fun h => hc (hcond.mpr h))]
      exact dget_map_pairs_perm (fun a : AnswerData => a.tag)
        (fun a : AnswerData => a.depends) l1 l2 hp htags k
  · intro k
    rw [hB1, hB2]
    exact dget_map_pairs_perm (fun a : AnswerData => a.tag)
      (fun a : AnswerData => a.groupTag) l1 l2 hp htags k

lemma all_mem_congr (m1 m2 : List String) (h : ∀ x, x ∈ m1 ↔ x ∈ m2)
    (s : List String) :
    m1.all (fun x => decide (x ∈ s)) = m2.all (fun x => decide (x ∈ s)) := by
  have h1 : (m1.all (fun x => decide (x ∈ s)) = true) ↔
      (m2.all (fun x => decide (x ∈ s)) = true) := by
    rw [List.all_eq_true, List.all_eq_true]
    constructor
    · intro hall x hx
      exact hall x ((h x).mpr hx)
    · intro hall x hx
      exact hall x ((h x).mp hx)
  cases hb : m2.all (fun x => decide (x ∈ s)) with
  | true => exact h1.mpr hb
  | false =>
    rw [Bool.eq_false_iff]
    intro ht
    exact Bool.false_ne_true (hb.symm.trans (h1.mp ht))

lemma depSatisfied_congr (B1 B2 : List (String × Option String))
    (hBp : B1.Perm B2) (s : List String) (d : String) :
    depSatisfied B1 s d = depSatisfied B2 s d := by
  have hGt : ∀ g, g ∈ groupTagsOf B1 ↔ g ∈ groupTagsOf B2 :=
    fun g => (hBp.filterMap (·.2)).mem_iff
  have hM : ∀ g x, x ∈ membersOf B1 g ↔ x ∈ membersOf B2 g :=
    fun g x =>
      (hBp.filterMap (fun p => if p.2 = some g then some p.1 else none)).mem_iff
  unfold depSatisfied
  by_cases hd : d ∈ groupTagsOf B1
  · rw [if_pos hd, if_pos ((hGt d).mp hd)]
    exact all_mem_congr (membersOf B1 d) (membersOf B2 d) (hM d) s
  · rw [if_neg hd, if_neg (fun h => hd ((hGt d).mpr h))]

lemma effectiveDeps_congr (G1 G2 : List (String × List String))
    (B1 B2 : List (String × Option String))
    (hG : ∀ k, dget G1 k = dget G2 k) (hB : ∀ k, dget B1 k = dget B2 k)
    (t : String) :
    effectiveDeps G1 B1 t = effectiveDeps G2 B2 t := by
  unfold effectiveDeps
  rw [hG t, hB t]
  rcases hj : (dget B2 t).join with _ | g
  · rfl
  · dsimp only
    rw [hG g]

lemma stepValid_congr (G1 G2 : List (String × List String))
    (B1 B2 : List (String × Option String))
    (hG : ∀ k, dget G1 k = dget G2 k) (hB : ∀ k, dget B1 k = dget B2 k)
    (hBp : B1.Perm B2)
    (hFt : ∀ x, x ∈ fragmentTags G1 B1 ↔ x ∈ fragmentTags G2 B2)
    (st : DagState) (t : Option String) :
    stepValid G1 B1 st t = stepValid G2 B2 st t := by
  unfold stepValid
  cases t with
  | none => rfl
  | some tag =>
    dsimp only
    have h1 : decide (tag ∈ fragmentTags G1 B1) =
        decide (tag ∈ fragmentTags G2 B2) := decide_eq_decide.mpr (hFt tag)
    have h2 : (effectiveDeps G1 B1 tag).all (depSatisfied B1 st.satisfied) =
        (effectiveDeps G2 B2 tag).all (depSatisfied B2 st.satisfied) := by
      rw [effectiveDeps_congr G1 G2 B1 B2 hG hB tag]
      exact congrArg (List.all (effectiveDeps G2 B2 tag))
        (funext (depSatisfied_congr B1 B2 hBp st.satisfied))
    have h3 : (match st.curGroup with
        | none => true
        | some g => decide ((dget B1 tag).join = some g)) =
        (match st.curGroup with
        | none => true
        | some g => decide ((dget B2 tag).join = some g)) := by
      cases st.curGroup with
      | none => rfl
      | some g =>
        dsimp only
        rw [hB tag]
    rw [h1, h2, h3]

lemma stepUpdate_congr (B1 B2 : List (String × Option String))
    (hB : ∀ k, dget B1 k = dget B2 k) (hBp : B1.Perm B2)
    (st : DagState) (tag : String) :
    stepUpdate B1 st tag = stepUpdate B2 st tag := by
  unfold stepUpdate
  dsimp only
  rw [hB tag]
  rcases hj : (dget B2 tag).join with _ | g
  · rfl
  · dsimp only
    rw [all_mem_congr (membersOf B1 g) (membersOf B2 g)
      (fun x => (hBp.filterMap
        (fun p => if p.2 = some g then some p.1 else none)).mem_iff)
      (tag :: st.satisfied)]

lemma gradeDagGo_congr (G1 G2 : List (String × List String))
    (B1 B2 : List (String × Option String))
    (hG : ∀ k, dget G1 k = dget G2 k) (hB : ∀ k, dget B1 k = dget B2 k)
    (hBp : B1.Perm B2)
    (hFt : ∀ x, x ∈ fragmentTags G1 B1 ↔ x ∈ fragmentTags G2 B2) :
    ∀ (sub : List (Option String)) (st : DagState),
      gradeDagGo G1 B1 st sub = gradeDagGo G2 B2 st sub := by
  intro sub
  induction sub with
  | nil => intro st; rfl
  | cons t rest ih =>
    intro st
    cases t with
    | none => rfl
    | some tag =>
      show (if stepValid G1 B1 st (some tag) then
          1 + gradeDagGo G1 B1 (stepUpdate B1 st tag) rest else 0) =
        (if stepValid G2 B2 st (some tag) then
          1 + gradeDagGo G2 B2 (stepUpdate B2 st tag) rest else 0)
      rw [stepValid_congr G1 G2 B1 B2 hG hB hBp hFt st (some tag),
        stepUpdate_congr B1 B2 hB hBp st tag, ih (stepUpdate B2 st tag)]

lemma solveDagGo_spec (G : List (String × List String))
    (B : List (String × Option String)) :
    ∀ (fuel : Nat) (st : DagState) (acc remaining sigma : List String),
      solveDagGo G B fuel st acc remaining = some sigma →
      ∃ tau, sigma = acc.reverse ++ tau ∧ tau.Perm remaining ∧
        gradeDagGo G B st (tau.map some) = tau.length := by
  intro fuel
  induction fuel with
  | zero =>
    intro st acc remaining sigma h
    cases remaining with
    | nil =>
      rw [show solveDagGo G B 0 st acc [] = some acc.reverse from rfl] at h
      obtain rfl := (Option.some.injEq _ _).mp h
      exact ⟨[], by simp, List.Perm.refl [], rfl⟩
    | cons r rs =>
      rw [show solveDagGo G B 0 st acc (r :: rs) = none from rfl] at h
      exact Option.noConfusion h
  | succ fuel ih =>
    intro st acc remaining sigma h
    cases remaining with
    | nil =>
      rw [show solveDagGo G B (fuel + 1) st acc [] = some acc.reverse from rfl] at h
      obtain rfl := (Option.some.injEq _ _).mp h
      exact ⟨[], by simp, List.Perm.refl [], rfl⟩
    | cons r rs =>
      rw [show solveDagGo G B (fuel + 1) st acc (r :: rs) =
        (match (r :: rs).find? (fun t => stepValid G B st (some t)) with
         | none => none
         | some t => solveDagGo G B fuel (stepUpdate B st t) (t :: acc)
             ((r :: rs).erase t)) from rfl] at h
      rcases hf : (r :: rs).find? (fun t => stepValid G B st (some t)) with _ | t
      · rw [hf] at h
        exact Option.noConfusion h
      · rw [hf] at h
        obtain ⟨tau2, hsig, hperm2, hgo2⟩ := ih (stepUpdate B st t) (t :: acc)
          ((r :: rs).erase t) sigma h
        refine ⟨t :: tau2, ?_, ?_, ?_⟩
        · rw [hsig, List.reverse_cons, List.append_assoc, List.singleton_append]
        · have hmem : t ∈ r :: rs := List.mem_of_find?_eq_some hf
          exact (hperm2.cons t).trans (List.perm_cons_erase hmem).symm
        · have hvalid0 := List.find?_some hf
          have hvalid : stepValid G B st (some t) = true := hvalid0
          show gradeDagGo G B st (some t :: tau2.map some) = (t :: tau2).length
          rw [show gradeDagGo G B st (some t :: tau2.map some) =
            (if stepValid G B st (some t) then
              1 + gradeDagGo G B (stepUpdate B st t) (tau2.map some)
             else 0) from rfl, if_pos hvalid, hgo2, List.length_cons]
          omega

lemma solveDag_spec (G : List (String × List String))
    (B : List (String × Option String)) (sigma : List String)
    (h : solveDag G B = some sigma) :
    sigma.Perm (fragmentTags G B) ∧
      gradeDagGo G B initState (sigma.map some) = sigma.length := by
  obtain ⟨tau, hsig, hperm, hgo⟩ := solveDagGo_spec G B
    (fragmentTags G B).length initState [] (fragmentTags G B) sigma h
  rw [show ([] : List String).reverse ++ tau = tau from by simp] at hsig
  subst hsig
  exact ⟨hperm, hgo⟩

lemma solveProblem_dag_ok (l stored : List AnswerData)
    (h : solveProblem l GradingMethodType.DAG = Except.ok stored) :
    ∃ sigma, solveDag (extractDag l).1 (extractDag l).2 = some sigma ∧
      stored = l.mergeSort (fun a b =>
        decide (sigma.indexOf a.tag ≤ sigma.indexOf b.tag)) := by
  rw [show solveProblem l GradingMethodType.DAG =
    (match solveDag (extractDag l).1 (extractDag l).2 with
     | none => Except.error "solve_dag: no valid topological order"
     | some solution =>
       if l.all (fun a => decide (a.tag ∈ solution)) then
         Except.ok (l.mergeSort
           (fun a b => decide (solution.indexOf a.tag ≤ solution.indexOf b.tag)))
       else Except.error "ValueError: tag is not in list") from rfl] at h
  rcases hs : solveDag (extractDag l).1 (extractDag l).2 with _ | sigma
  · rw [hs] at h
    exact Except.noConfusion h
  · rw [hs] at h
    dsimp only at h
    by_cases hall : l.all (fun a => decide (a.tag ∈ sigma)) = true
    · rw [if_pos hall] at h
      obtain rfl := (Except.ok.injEq _ _).mp h
      exact ⟨sigma, rfl, rfl⟩
    · rw [if_neg hall] at h
      exact Except.noConfusion h

lemma mergeSort_indexOf_map_tag (l : List AnswerData) (sigma : List String)
    (hnd : (l.map (·.tag)).Nodup) (hsnd : sigma.Nodup)
    (hperm : (l.map (·.tag)).Perm sigma) :
    (l.mergeSort (fun a b =>
      decide (sigma.indexOf a.tag ≤ sigma.indexOf b.tag))).map (·.tag) = sigma := by
  have hmp : (l.mergeSort (fun a b =>
      decide (sigma.indexOf a.tag ≤ sigma.indexOf b.tag))).Perm l :=
    List.mergeSort_perm l _
  have hpermTags : ((l.mergeSort (fun a b =>
      decide (sigma.indexOf a.tag ≤ sigma.indexOf b.tag))).map (·.tag)).Perm sigma :=
    (hmp.map (·.tag)).trans hperm
  have hndm : ((l.mergeSort (fun a b =>
      decide (sigma.indexOf a.tag ≤ sigma.indexOf b.tag))).map (·.tag)).Nodup :=
    hnd.perm (hmp.map (·.tag)).symm
  have hsorted := @List.sorted_mergeSort AnswerData
    (fun a b : AnswerData =>
      decide (sigma.indexOf a.tag ≤ sigma.indexOf b.tag))
    (fun a b c hab hbc => by
      simp only [decide_eq_true_eq] at hab hbc ⊢
      exact le_trans hab hbc)
    (fun a b => by
      simp only [Bool.or_eq_true, decide_eq_true_eq]
      exact le_total _ _)
    l
  have hsorted2 : (l.mergeSort (fun a b =>
      decide (sigma.indexOf a.tag ≤ sigma.indexOf b.tag))).Pairwise
        (fun a b => sigma.indexOf a.tag ≤ sigma.indexOf b.tag) :=
    hsorted.imp (fun hab => by simpa using hab)
  have hsortedTags : ((l.mergeSort (fun a b =>
      decide (sigma.indexOf a.tag ≤ sigma.indexOf b.tag))).map (·.tag)).Pairwise
        (fun x y => sigma.indexOf x ≤ sigma.indexOf y) :=
    List.pairwise_map.mpr hsorted2
  have hstrict : ((l.mergeSort (fun a b =>
      decide (sigma.indexOf a.tag ≤ sigma.indexOf b.tag))).map (·.tag)).Pairwise
        (fun x y => sigma.indexOf x < sigma.indexOf y) := by
    rw [List.pairwise_iff_getElem] at hsortedTags ⊢
    intro i j hi hj hij
    have hle := hsortedTags i j hi hj hij
    have hne : ¬ ((l.mergeSort (fun a b =>
        decide (sigma.indexOf a.tag ≤ sigma.indexOf b.tag))).map (·.tag))[i] =
        ((l.mergeSort (fun a b =>
        decide (sigma.indexOf a.tag ≤ sigma.indexOf b.tag))).map (·.tag))[j] := by
      rw [hndm.getElem_inj_iff]
      omega
    have hmi : ((l.mergeSort (fun a b =>
        decide (sigma.indexOf a.tag ≤ sigma.indexOf b.tag))).map (·.tag))[i] ∈
        sigma := hpermTags.mem_iff.mp (List.getElem_mem hi)
    have hmj : ((l.mergeSort (fun a b =>
        decide (sigma.indexOf a.tag ≤ sigma.indexOf b.tag))).map (·.tag))[j] ∈
        sigma := hpermTags.mem_iff.mp (List.getElem_mem hj)
    exact lt_of_le_of_ne hle
      (fun he => hne ((List.indexOf_inj hmi hmj).mp he))
  have hsigStrict : sigma.Pairwise
      (fun x y => sigma.indexOf x < sigma.indexOf y) := by
    rw [List.pairwise_iff_getElem]
    intro i j hi hj hij
    rw [List.indexOf_getElem hsnd i hi, List.indexOf_getElem hsnd j hj]
    exact hij
  haveI : IsAntisymm String (fun x y => sigma.indexOf x < sigma.indexOf y) :=
    ⟨fun a b h1 h2 => absurd h2 (Nat.lt_asymm h1)⟩
  exact List.eq_of_perm_of_sorted hpermTags hstrict hsigStrict

lemma roundTo2_one : roundTo2 (1 : ℚ) = 1 := by
  with_unfolding_all decide

lemma gradeDagBranch_result_score (cfg : GradeConfig) (student : List SubEntry)
    (G : List (String × List String)) (B : List (String × Option String))
    (out : GradeOutcome)
    (hok : gradeDagBranch cfg student (G, B) = Except.ok out) :
    out.result.score = roundTo2 out.finalScore := by
  unfold gradeDagBranch at hok
  cases hsubm : student.mapM (fun e => e.tagKey) with
  | none =>
    rw [hsubm] at hok
    exact Except.noConfusion hok
  | some sub =>
    rw [hsubm] at hok
    dsimp only at hok
    cases hpc : cfg.partialCredit
    · rw [hpc] at hok
      dsimp only [Except.map] at hok
      obtain rfl := (Except.ok.injEq _ _).mp hok
      rfl
    · rw [hpc] at hok
      by_cases hL0 : (gradeDag sub G B).2 = 0
      · rw [if_pos hL0] at hok
        dsimp only [Except.map] at hok
        exact Except.noConfusion hok
      · rw [if_neg hL0] at hok
        dsimp only [Except.map] at hok
        obtain rfl := (Except.ok.injEq _ _).mp hok
        rfl

lemma gradeDagBranch_full_score (cfg : GradeConfig) (student : List SubEntry)
    (G : List (String × List String)) (B : List (String × Option String))
    (sigma : List String)
    (hsub : student.mapM (·.tagKey) = some (sigma.map some))
    (hvalid : gradeDagGo G B initState (sigma.map some) = sigma.length)
    (hperm : sigma.Perm (fragmentTags G B)) (hne : sigma ≠ []) :
    ∃ out, gradeDagBranch cfg student (G, B) = Except.ok out ∧
      out.result.score = 1 := by
  have hL : (gradeDag (sigma.map some) G B).2 = sigma.length := by
    show (fragmentTags G B).length = sigma.length
    exact hperm.length_eq.symm
  have hnic : (gradeDag (sigma.map some) G B).1 = sigma.length := hvalid
  have hlen0 : sigma.length ≠ 0 := fun h => hne (List.length_eq_zero.mp h)
  obtain ⟨out, hok⟩ := gradeDagBranch_ok_exists cfg student G B (sigma.map some)
    hsub (fun _ => by rw [hL]; exact hlen0)
  obtain ⟨hfw, hfb, hnone, hlcs⟩ :=
    gradeDagBranch_char cfg student G B (sigma.map some) out hsub hok
  have hsublen : (sigma.map some).length = sigma.length := List.length_map _ _
  have hscore : out.finalScore = 1 := by
    cases hpc : cfg.partialCredit
    · rw [hnone hpc, hnic, hL]
      rw [if_pos rfl]
    · rw [hlcs hpc, hL,
        lcsPartialCredit_zero_of_valid G B sigma hperm hvalid]
      have hq : ((sigma.length : ℚ)) ≠ 0 := Nat.cast_ne_zero.mpr hlen0
      rw [Nat.cast_zero, sub_zero, div_self hq]
      exact max_eq_right zero_le_one
  refine ⟨out, hok, ?_⟩
  rw [gradeDagBranch_result_score cfg student G B out hok, hscore, roundTo2_one]

lemma unorderedScore_self (u : List String) (hnd : u.Nodup) (hne : u ≠ []) :
    unorderedScore u u = 1 := by
  show max 0 ((((u.toFinset ∩ u.toFinset).card : ℚ) -
    ((u.length : ℚ) - ((u.toFinset ∩ u.toFinset).card : ℚ))) / (u.length : ℚ)) = 1
  rw [Finset.inter_self]
  have hcard : ((u.toFinset.card : ℚ)) = (u.length : ℚ) := by
    rw [List.toFinset_card_of_nodup hnd]
  rw [hcard]
  have hq : ((u.length : ℚ)) ≠ 0 :=
    Nat.cast_ne_zero.mpr (fun h => hne (List.length_eq_zero.mp h))
  rw [sub_self, sub_zero, div_self hq]
  exact max_eq_right zero_le_one

lemma ranking_self_valid (stored : List AnswerData)
    (hsorted : stored.Pairwise (fun a b => a.ranking ≤ b.ranking))
    (hnd : (stored.map (·.tag)).Nodup) :
    gradeDagGo (buildRankingGraph (rankSorted stored)) [] initState
      ((stored.map (·.tag)).map some) = stored.length := by
  have hnd2 : ((rankSorted stored).map (·.tag)).Nodup :=
    hnd.perm ((rankSorted_perm stored).symm.map (·.tag))
  exact ranking_sorted_valid (rankSorted stored) stored
    (rankSorted_sorted stored) hnd2 (rankSorted_perm stored).symm hsorted
    stored [] [] rfl (by intro x; simp)

lemma prepareTag_inv_none (cfg : GradeConfig) (st : PrepState) (a : RawAnswer)
    (st2 : PrepState)
    (h : prepareTag cfg (none, none) st a = Except.ok st2)
    (hinv : PrepInv st) : PrepInv st2 := by
  obtain ⟨hu, hc, hi, hfr⟩ := prepareTag_ok_spec cfg (none, none) st a st2 h
  obtain ⟨h1, h2, h3, h4, h5, h6⟩ := hinv
  cases hco : a.isCorrect
  · rw [hco] at hu hc
    simp only [Bool.false_eq_true, if_false, List.append_nil] at hu hc
    unfold PrepInv
    rw [hu, hc]
    exact ⟨h1, h2, h3, h4, h5, h6⟩
  · rw [hco] at hu hc
    simp only [if_true] at hu hc
    have hfr2 : a.tagAttr ∉ st.usedTags := hfr hco
    have htin : a.tagAttr ∉ st.correctAnswers.map (·.tag) := by
      intro hm
      obtain ⟨ad, had, hade⟩ := List.mem_map.mp hm
      exact hfr2 (hade ▸ h2 ad had)
    have hmapnew : ([toAnswerData (none, none) a].map (·.tag)) = [a.tagAttr] := rfl
    unfold PrepInv
    rw [hu, hc]
    refine ⟨?_, ?_, ?_, ?_, ?_, ?_⟩
    · rw [List.nodup_append]
      exact ⟨h1, List.nodup_singleton _,
        fun x hx hmem => hfr2 (by rwa [List.mem_singleton.mp hmem] at hx)⟩
    · intro ad had
      rcases List.mem_append.mp had with hold | hnew
      · exact List.mem_append.mpr (Or.inl (h2 ad hold))
      · rw [List.mem_singleton.mp hnew]
        exact List.mem_append.mpr (Or.inr (List.mem_singleton.mpr rfl))
    · rw [List.map_append, hmapnew, List.nodup_append]
      exact ⟨h3, List.nodup_singleton _,
        fun x hx hmem => htin (by rwa [List.mem_singleton.mp hmem] at hx)⟩
    · intro ad had gt hgt
      rcases List.mem_append.mp had with hold | hnew
      · exact List.mem_append.mpr (Or.inl (h4 ad hold gt hgt))
      · rw [List.mem_singleton.mp hnew] at hgt
        exact Option.noConfusion hgt
    · intro ad had gt hgt
      rw [List.map_append, hmapnew]
      rcases List.mem_append.mp had with hold | hnew
      · intro hmm
        rcases List.mem_append.mp hmm with hA | hB
        · exact h5 ad hold gt hgt hA
        · exact hfr2 (List.mem_singleton.mp hB ▸ h4 ad hold gt hgt)
      · rw [List.mem_singleton.mp hnew] at hgt
        exact Option.noConfusion hgt
    · intro b1 hb1 b2 hb2 hb1s hbeq
      rcases List.mem_append.mp hb1 with h1o | h1n
      · rcases List.mem_append.mp hb2 with h2o | h2n
        · exact h6 b1 h1o b2 h2o hb1s hbeq
        · rw [List.mem_singleton.mp h2n] at hbeq
          rw [hbeq] at hb1s
          simp [toAnswerData] at hb1s
      · rw [List.mem_singleton.mp h1n] at hb1s
        simp [toAnswerData] at hb1s

lemma prepareTag_inv_group (cfg : GradeConfig) (gtag : String)
    (gdeps : List String) (st : PrepState) (a : RawAnswer) (st2 : PrepState)
    (h : prepareTag cfg (some gtag, some gdeps) st a = Except.ok st2)
    (hinv : PrepInv st) (hg : GroupInv gtag gdeps st) :
    PrepInv st2 ∧ GroupInv gtag gdeps st2 := by
  obtain ⟨hu, hc, hi, hfr⟩ :=
    prepareTag_ok_spec cfg (some gtag, some gdeps) st a st2 h
  obtain ⟨h1, h2, h3, h4, h5, h6⟩ := hinv
  obtain ⟨hg1, hg2, hg3⟩ := hg
  cases hco : a.isCorrect
  · rw [hco] at hu hc
    simp only [Bool.false_eq_true, if_false, List.append_nil] at hu hc
    constructor
    · unfold PrepInv
      rw [hu, hc]
      exact ⟨h1, h2, h3, h4, h5, h6⟩
    · unfold GroupInv
      rw [hu, hc]
      exact ⟨hg1, hg2, hg3⟩
  · rw [hco] at hu hc
    simp only [if_true] at hu hc
    have hfr2 : a.tagAttr ∉ st.usedTags := hfr hco
    have htin : a.tagAttr ∉ st.correctAnswers.map (·.tag) := by
      intro hm
      obtain ⟨ad, had, hade⟩ := List.mem_map.mp hm
      exact hfr2 (hade ▸ h2 ad had)
    have hgne : gtag ≠ a.tagAttr := fun he => hfr2 (he ▸ hg1)
    have hmapnew : ([toAnswerData (some gtag, some gdeps) a].map (·.tag)) =
      [a.tagAttr] := rfl
    constructor
    · unfold PrepInv
      rw [hu, hc]
      refine ⟨?_, ?_, ?_, ?_, ?_, ?_⟩
      · rw [List.nodup_append]
        exact ⟨h1, List.nodup_singleton _,
          fun x hx hmem => hfr2 (by rwa [List.mem_singleton.mp hmem] at hx)⟩
      · intro ad had
        rcases List.mem_append.mp had with hold | hnew
        · exact List.mem_append.mpr (Or.inl (h2 ad hold))
        · rw [List.mem_singleton.mp hnew]
          exact List.mem_append.mpr (Or.inr (List.mem_singleton.mpr rfl))
      · rw [List.map_append, hmapnew, List.nodup_append]
        exact ⟨h3, List.nodup_singleton _,
          fun x hx hmem => htin (by rwa [List.mem_singleton.mp hmem] at hx)⟩
      · intro ad had gt hgt
        rcases List.mem_append.mp had with hold | hnew
        · exact List.mem_append.mpr (Or.inl (h4 ad hold gt hgt))
        · rw [List.mem_singleton.mp hnew] at hgt
          have hge : gtag = gt := (Option.some.injEq _ _).mp hgt
          rw [← hge]
          exact List.mem_append.mpr (Or.inl hg1)
      · intro ad had gt hgt
        rw [List.map_append, hmapnew]
        rcases List.mem_append.mp had with hold | hnew
        · intro hmm
          rcases List.mem_append.mp hmm with hA | hB
          · exact h5 ad hold gt hgt hA
          · exact hfr2 (List.mem_singleton.mp hB ▸ h4 ad hold gt hgt)
        · rw [List.mem_singleton.mp hnew] at hgt
          obtain rfl := (Option.some.injEq _ _).mp hgt
          intro hmm
          rcases List.mem_append.mp hmm with hA | hB
          · exact hg2 hA
          · exact hgne (List.mem_singleton.mp hB)
      · intro b1 hb1 b2 hb2 hb1s hbeq
        rcases List.mem_append.mp hb1 with h1o | h1n
        · rcases List.mem_append.mp hb2 with h2o | h2n
          · exact h6 b1 h1o b2 h2o hb1s hbeq
          · rw [List.mem_singleton.mp h2n] at hbeq ⊢
            have hb1g : b1.groupTag = some gtag := hbeq
            rw [hg3 b1 h1o hb1g]
            rfl
        · rcases List.mem_append.mp hb2 with h2o | h2n
          · rw [List.mem_singleton.mp h1n] at hbeq ⊢
            have hb2g : b2.groupTag = some gtag := hbeq.symm
            rw [hg3 b2 h2o hb2g]
            rfl
          · rw [List.mem_singleton.mp h1n, List.mem_singleton.mp h2n]
    · unfold GroupInv
      rw [hu, hc]
      refine ⟨List.mem_append.mpr (Or.inl hg1), ?_, ?_⟩
      · rw [List.map_append, hmapnew]
        intro hmm
        rcases List.mem_append.mp hmm with hA | hB
        · exact hg2 hA
        · exact hgne (List.mem_singleton.mp hB)
      · intro ad had hadg
        rcases List.mem_append.mp had with hold | hnew
        · exact hg3 ad hold hadg
        · rw [List.mem_singleton.mp hnew]
          rfl

lemma foldlM_prepareTag_inv (cfg : GradeConfig) (gtag : String)
    (gdeps : List String) :
    ∀ (answers : List RawAnswer) (st st2 : PrepState),
      answers.foldlM (prepareTag cfg (some gtag, some gdeps)) st = Except.ok st2 →
      PrepInv st → GroupInv gtag gdeps st →
      PrepInv st2 ∧ GroupInv gtag gdeps st2 := by
  intro answers
  induction answers with
  | nil =>
    intro st st2 h hinv hg
    obtain rfl := (Except.ok.injEq _ _).mp h
    exact ⟨hinv, hg⟩
  | cons a rest ih =>
    intro st st2 h hinv hg
    rw [List.foldlM_cons] at h
    cases hstep : prepareTag cfg (some gtag, some gdeps) st a with
    | error e =>
      rw [hstep] at h
      exact absurd h (by simp [Bind.bind, Except.bind])
    | ok stMid =>
      rw [hstep] at h
      have h2 : rest.foldlM (prepareTag cfg (some gtag, some gdeps)) stMid =
          Except.ok st2 := by
        simpa [Bind.bind, Except.bind] using h
      obtain ⟨hinv2, hg2⟩ :=
        prepareTag_inv_group cfg gtag gdeps st a stMid hstep hinv hg
      exact ih stMid st2 h2 hinv2 hg2

lemma prepareChild_inv (cfg : GradeConfig) (c : PrepChild) (st st2 : PrepState)
    (h : prepareChild cfg st c = Except.ok st2) (hinv : PrepInv st) :
    PrepInv st2 := by
  cases c with
  | answer a => exact prepareTag_inv_none cfg st a st2 h hinv
  | blockGroup gtag gdepends answers =>
    simp only [prepareChild] at h
    by_cases h1 : cfg.gradingMethod ≠ GradingMethodType.DAG
    · rw [if_pos h1] at h
      exact Except.noConfusion h
    rw [if_neg h1] at h
    by_cases h2 : gtag ∈ st.usedTags
    · rw [if_pos h2] at h
      exact Except.noConfusion h
    rw [if_neg h2] at h
    obtain ⟨hA, hB, hC, hD, hE, hF⟩ := hinv
    have hinvMid : PrepInv ⟨st.usedTags ++ [gtag], st.correctAnswers,
        st.incorrectAnswers⟩ := by
      refine ⟨?_, ?_, hC, ?_, hE, hF⟩
      · show (st.usedTags ++ [gtag]).Nodup
        rw [List.nodup_append]
        exact ⟨hA, List.nodup_singleton _,
          fun x hx hmem => h2 (by rwa [List.mem_singleton.mp hmem] at hx)⟩
      · intro ad had
        exact List.mem_append.mpr (Or.inl (hB ad had))
      · intro ad had gt hgt
        exact List.mem_append.mpr (Or.inl (hD ad had gt hgt))
    have hgMid : GroupInv gtag gdepends ⟨st.usedTags ++ [gtag],
        st.correctAnswers, st.incorrectAnswers⟩ := by
      refine ⟨List.mem_append.mpr (Or.inr (List.mem_singleton.mpr rfl)), ?_, ?_⟩
      · intro hm
        obtain ⟨ad, had, hade⟩ := List.mem_map.mp hm
        exact h2 (hade ▸ hB ad had)
      · intro ad had hadg
        exact absurd (hD ad had gtag hadg) h2
    exact (foldlM_prepareTag_inv cfg gtag gdepends answers _ st2 h hinvMid hgMid).1

lemma foldlM_prepareChild_inv (cfg : GradeConfig) :
    ∀ (children : List PrepChild) (st st2 : PrepState),
      children.foldlM (prepareChild cfg) st = Except.ok st2 →
      PrepInv st → PrepInv st2 := by
  intro children
  induction children with
  | nil =>
    intro st st2 h hinv
    obtain rfl := (Except.ok.injEq _ _).mp h
    exact hinv
  | cons c rest ih =>
    intro st st2 h hinv
    rw [List.foldlM_cons] at h
    cases hstep : prepareChild cfg st c with
    | error e =>
      rw [hstep] at h
      exact absurd h (by simp [Bind.bind, Except.bind])
    | ok stMid =>
      rw [hstep] at h
      have h2 : rest.foldlM (prepareChild cfg) stMid = Except.ok st2 := by
        simpa [Bind.bind, Except.bind] using h
      exact ih stMid st2 h2 (prepareChild_inv cfg c st stMid hstep hinv)

lemma prepInv_init : PrepInv ⟨[], [], []⟩ :=
  ⟨List.nodup_nil, fun _ had => absurd had (List.not_mem_nil _),
    List.nodup_nil, fun _ had => absurd had (List.not_mem_nil _),
    fun _ had => absurd had (List.not_mem_nil _),
    fun _ h1 => absurd h1 (List.not_mem_nil _)⟩

lemma filterMap_if_sublist {α β : Type} (p : α → Bool) (f : α → β) :
    ∀ l : List α,
      (l.filterMap (fun a => if p a then some (f a) else none)).Sublist
        (l.map f) := by
  intro l
  induction l with
  | nil => exact List.Sublist.refl []
  | cons a rest ih =>
    rw [List.map_cons, List.filterMap_cons]
    cases hpa : p a
    · simp only [Bool.false_eq_true, if_false]
      exact List.Sublist.cons (f a) ih
    · simp only [if_true]
      exact List.Sublist.cons₂ (f a) ih

lemma childCorrect_uuid_sublist (c : PrepChild) :
    ((childCorrectADs c).map (·.uuid)).Sublist
      ((childAnswers c).map (·.uuid)) := by
  unfold childCorrectADs
  rw [List.map_filterMap]
  have heq : (fun a : RawAnswer =>
      ((if a.isCorrect then some (toAnswerData (childGroupInfo c) a)
        else none)).map (·.uuid)) =
      (fun a : RawAnswer => if a.isCorrect then some a.uuid else none) := by
    funext a
    cases ha : a.isCorrect
    · simp [ha]
    · simp [ha, toAnswerData]
  rw [heq]
  exact filterMap_if_sublist (fun a => a.isCorrect) (fun a => a.uuid)
    (childAnswers c)

lemma flatMap_correct_uuid_sublist (children : List PrepChild) :
    ((children.flatMap childCorrectADs).map (·.uuid)).Sublist
      (children.flatMap (fun c => (childAnswers c).map (·.uuid))) := by
  induction children with
  | nil => exact List.Sublist.refl []
  | cons c rest ih =>
    rw [List.flatMap_cons, List.flatMap_cons, List.map_append]
    exact (childCorrect_uuid_sublist c).append ih

lemma grade_self_ranking (cfg : GradeConfig) (stored : List AnswerData)
    (hm : cfg.gradingMethod = GradingMethodType.RANKING)
    (hsorted : stored.Pairwise (fun a b => a.ranking ≤ b.ranking))
    (hnd : (stored.map (·.tag)).Nodup)
    (huuid : (stored.map (·.uuid)).Nodup)
    (hne : stored ≠ []) :
    ∃ out, grade cfg (stored.map toSubEntry) stored = Except.ok out ∧
      out.result.score = 1 := by
  rw [grade_rankdag cfg (stored.map toSubEntry) stored (Or.inl hm),
    gatedStudent_self cfg stored huuid, hm]
  show ∃ out, gradeDagBranch cfg (stored.map toSubEntry)
    (buildRankingGraph (rankSorted stored), []) = Except.ok out ∧
    out.result.score = 1
  apply gradeDagBranch_full_score cfg (stored.map toSubEntry)
    (buildRankingGraph (rankSorted stored)) [] (stored.map (·.tag))
  · rw [toSubEntry_mapM, List.map_map]
    rfl
  · rw [List.length_map]
    exact ranking_self_valid stored hsorted hnd
  · rw [fragmentTags_empty_B, buildRankingGraph_dkeys (rankSorted stored)
      (hnd.perm ((rankSorted_perm stored).symm.map (·.tag)))]
    exact ((rankSorted_perm stored).map (·.tag)).symm
  · intro h
    exact hne (List.map_eq_nil_iff.mp h)

lemma grade_self_dag (cfg : GradeConfig) (correct stored : List AnswerData)
    (hm : cfg.gradingMethod = GradingMethodType.DAG)
    (hsp : solveProblem correct GradingMethodType.DAG = Except.ok stored)
    (htags : (correct.map (·.tag)).Nodup)
    (hdisj : ∀ ad ∈ correct, ∀ gt, ad.groupTag = some gt →
      gt ∉ correct.map (·.tag))
    (hsame : ∀ a1 ∈ correct, ∀ a2 ∈ correct, a1.groupTag.isSome = true →
      a1.groupTag = a2.groupTag → a1.groupDepends = a2.groupDepends)
    (huuid : (correct.map (·.uuid)).Nodup)
    (hne : correct ≠ []) :
    ∃ out, grade cfg (stored.map toSubEntry) stored = Except.ok out ∧
      out.result.score = 1 := by
  obtain ⟨sigma, hsg, hms⟩ := solveProblem_dag_ok correct stored hsp
  have hpc : stored.Perm correct := by
    rw [hms]
    exact List.mergeSort_perm correct _
  have htags_s : (stored.map (·.tag)).Nodup := htags.perm (hpc.symm.map (·.tag))
  have huuid_s : (stored.map (·.uuid)).Nodup :=
    huuid.perm (hpc.symm.map (·.uuid))
  have hsame_s : ∀ a1 ∈ stored, ∀ a2 ∈ stored, a1.groupTag.isSome = true →
      a1.groupTag = a2.groupTag → a1.groupDepends = a2.groupDepends :=
    fun a1 h1 a2 h2 => hsame a1 (hpc.mem_iff.mp h1) a2 (hpc.mem_iff.mp h2)
  have hdisj_s : ∀ ad ∈ stored, ∀ gt, ad.groupTag = some gt →
      gt ∉ stored.map (·.tag) := by
    intro ad had gt hgt hmem
    exact hdisj ad (hpc.mem_iff.mp had) gt hgt
      ((hpc.map (·.tag)).mem_iff.mp hmem)
  have hvOf_c : ∀ a ∈ correct,
      (a.groupDepends.isSome && a.groupTag.isSome) = true →
      a.groupDepends.getD [] = gdepOf correct (a.groupTag.getD "") := by
    intro a ha hpf
    rw [Bool.and_eq_true] at hpf
    exact gdepOf_spec correct hsame a ha hpf.1 hpf.2
  have hvOf_s : ∀ a ∈ stored,
      (a.groupDepends.isSome && a.groupTag.isSome) = true →
      a.groupDepends.getD [] = gdepOf correct (a.groupTag.getD "") :=
    fun a ha hpf => hvOf_c a (hpc.mem_iff.mp ha) hpf
  have hfrag_c : fragmentTags (extractDag correct).1 (extractDag correct).2 =
      correct.map (·.tag) :=
    extractDag_fragmentTags correct htags hdisj (gdepOf correct) hvOf_c
  have hfrag_s : fragmentTags (extractDag stored).1 (extractDag stored).2 =
      stored.map (·.tag) :=
    extractDag_fragmentTags stored htags_s hdisj_s (gdepOf correct) hvOf_s
  obtain ⟨hsgperm0, hsgvalid⟩ := solveDag_spec (extractDag correct).1
    (extractDag correct).2 sigma hsg
  have hsgperm : sigma.Perm (correct.map (·.tag)) := by
    rw [← hfrag_c]
    exact hsgperm0
  have hsgnd : sigma.Nodup := htags.perm hsgperm.symm
  have hmt : stored.map (·.tag) = sigma := by
    rw [hms]
    exact mergeSort_indexOf_map_tag correct sigma htags hsgnd hsgperm.symm
  obtain ⟨hGc, hBc⟩ := extractDag_dget_congr correct stored hpc.symm htags hsame
  have hB1 : (extractDag correct).2 =
      correct.map (fun a => (a.tag, a.groupTag)) :=
    (extractDag_char correct htags (gdepOf correct) hvOf_c).1
  have hB2 : (extractDag stored).2 =
      stored.map (fun a => (a.tag, a.groupTag)) :=
    (extractDag_char stored htags_s (gdepOf correct) hvOf_s).1
  have hBp : (extractDag correct).2.Perm (extractDag stored).2 := by
    rw [hB1, hB2]
    exact hpc.symm.map _
  have hFt : ∀ x,
      x ∈ fragmentTags (extractDag correct).1 (extractDag correct).2 ↔
      x ∈ fragmentTags (extractDag stored).1 (extractDag stored).2 := by
    intro x
    rw [hfrag_c, hfrag_s]
    exact (hpc.symm.map (·.tag)).mem_iff
  have hwalk : gradeDagGo (extractDag stored).1 (extractDag stored).2 initState
      ((stored.map (·.tag)).map some) = (stored.map (·.tag)).length := by
    rw [← gradeDagGo_congr (extractDag correct).1 (extractDag stored).1
      (extractDag correct).2 (extractDag stored).2 hGc hBc hBp hFt
      ((stored.map (·.tag)).map some) initState, hmt, hsgvalid]
  have hne_s : stored.map (·.tag) ≠ [] := by
    intro h
    have h0 := List.map_eq_nil_iff.mp h
    rw [h0] at hpc
    have hl := hpc.length_eq
    exact hne (List.length_eq_zero.mp hl.symm)
  rw [grade_rankdag cfg (stored.map toSubEntry) stored (Or.inr hm),
    gatedStudent_self cfg stored huuid_s, hm]
  show ∃ out, gradeDagBranch cfg (stored.map toSubEntry)
    ((extractDag stored).1, (extractDag stored).2) = Except.ok out ∧
    out.result.score = 1
  apply gradeDagBranch_full_score cfg (stored.map toSubEntry)
    (extractDag stored).1 (extractDag stored).2 (stored.map (·.tag))
  · rw [toSubEntry_mapM, List.map_map]
    rfl
  · exact hwalk
  · exact List.Perm.of_eq hfrag_s.symm
  · exact hne_s

/-- C1, counterexample: under the EXTERNAL grading method `prepare` completes
(the self-check scores 0, so the stored list is `solve_problem`'s output,
which for EXTERNAL is the declared list), yet grading the stored
correct-answer list as a submission stores score 0, not 1: the EXTERNAL
dispatch leaves the initial zero score in place. -/
theorem c1_counterexample :
    (prepareCore
        ⟨GradingMethodType.EXTERNAL, false, FeedbackType.NONE, 1,
          PartialCreditType.NONE⟩
        [PrepChild.answer ⟨true, none, "A", -1, none, "A", [], "uA"⟩] =
      Except.ok [⟨"A", none, -1, "A", none, [], none, none, "uA"⟩]) ∧
    ((grade
        ⟨GradingMethodType.EXTERNAL, false, FeedbackType.NONE, 1,
          PartialCreditType.NONE⟩
        ([(⟨"A", none, -1, "A", none, [], none, none, "uA"⟩ : AnswerData)].map
          toSubEntry)
        [⟨"A", none, -1, "A", none, [], none, none, "uA"⟩]).map
      (fun o => o.result.score) = Except.ok 0) ∧ (0 : ℚ) ≠ 1 := by
  refine ⟨by with_unfolding_all decide, by with_unfolding_all decide, by norm_num⟩

/-- C1 (amended): for every non-EXTERNAL grading method, when `prepare`
completes (over children whose block uuids are pairwise distinct, as the
rendering layer guarantees), the stored correct-answer list — the declared
order when it self-grades to a perfect score, else `solve_problem`'s
replacement — grades as a submission to a stored score of exactly 1 under the
instance's own grading method and partial-credit policy.  Under EXTERNAL the
stored score of that call is 0 instead (see the counterexample). -/
theorem c1_amended (cfg : GradeConfig) (children : List PrepChild)
    (stored : List AnswerData)
    (hok : prepareCore cfg children = Except.ok stored)
    (huuid : (children.flatMap (fun c => (childAnswers c).map (·.uuid))).Nodup)
    (hext : cfg.gradingMethod ≠ GradingMethodType.EXTERNAL) :
    ∃ out, grade cfg (stored.map toSubEntry) stored = Except.ok out ∧
      out.result.score = 1 := by
  obtain ⟨st, hfold, hnonempty, hdist, selfOut, hself, hcase⟩ :=
    prepareCore_ok_spec cfg children stored hok
  have hcorr : st.correctAnswers = children.flatMap childCorrectADs := by
    obtain ⟨-, hc, -, -⟩ :=
      foldlM_prepareChild_spec cfg children ⟨[], [], []⟩ st hfold
    simpa using hc
  have huuid_c : (st.correctAnswers.map (·.uuid)).Nodup := by
    rw [hcorr]
    exact List.Nodup.sublist (flatMap_correct_uuid_sublist children) huuid
  obtain ⟨hI1, hI2, hI3, hI4, hI5, hI6⟩ :=
    foldlM_prepareChild_inv cfg children ⟨[], [], []⟩ st hfold prepInv_init
  have hne_c : st.correctAnswers ≠ [] := fun hc => hnonempty ⟨hext, hc⟩
  rcases hcase with ⟨hscore1, rfl⟩ | ⟨hscorene, hsolve⟩
  · exact ⟨selfOut, hself, hscore1⟩
  · cases hgm : cfg.gradingMethod with
    | EXTERNAL => exact absurd hgm hext
    | UNORDERED =>
      rw [hgm] at hsolve
      rw [show solveProblem st.correctAnswers GradingMethodType.UNORDERED =
        Except.ok st.correctAnswers from rfl] at hsolve
      obtain rfl := (Except.ok.injEq _ _).mp hsolve
      have hlen0 : ¬ st.correctAnswers.length = 0 :=
        fun h => hne_c (List.length_eq_zero.mp h)
      rw [grade_unordered cfg (st.correctAnswers.map toSubEntry)
        st.correctAnswers hgm, if_neg hlen0]
      refine ⟨_, rfl, ?_⟩
      show roundTo2 (unorderedScore (st.correctAnswers.map (·.uuid))
        ((gatedStudent cfg (st.correctAnswers.map toSubEntry)
          st.correctAnswers).map (·.uuid))) = 1
      rw [gatedStudent_uuid_map]
      have hmm : (st.correctAnswers.map toSubEntry).map (·.uuid) =
          st.correctAnswers.map (·.uuid) := by
        rw [List.map_map]
        rfl
      rw [hmm, unorderedScore_self (st.correctAnswers.map (·.uuid)) huuid_c
        (fun h => hne_c (List.map_eq_nil_iff.mp h)), roundTo2_one]
    | ORDERED =>
      rw [hgm] at hsolve
      rw [show solveProblem st.correctAnswers GradingMethodType.ORDERED =
        Except.ok st.correctAnswers from rfl] at hsolve
      obtain rfl := (Except.ok.injEq _ _).mp hsolve
      rw [grade_ordered cfg (st.correctAnswers.map toSubEntry)
        st.correctAnswers hgm, gatedStudent_self cfg st.correctAnswers huuid_c]
      have hconteq : (st.correctAnswers.map toSubEntry).map (·.inner_html) =
          st.correctAnswers.map (fun a => some a.inner_html) := by
        rw [List.map_map]
        rfl
      rw [if_pos hconteq]
      refine ⟨_, rfl, ?_⟩
      show roundTo2 1 = 1
      exact roundTo2_one
    | RANKING =>
      rw [hgm] at hsolve
      rw [show solveProblem st.correctAnswers GradingMethodType.RANKING =
        Except.ok (rankSorted st.correctAnswers) from rfl] at hsolve
      obtain rfl := (Except.ok.injEq _ _).mp hsolve
      refine grade_self_ranking cfg (rankSorted st.correctAnswers) hgm
        (rankSorted_sorted st.correctAnswers)
        (hI3.perm ((rankSorted_perm st.correctAnswers).symm.map (·.tag)))
        (huuid_c.perm ((rankSorted_perm st.correctAnswers).symm.map (·.uuid)))
        ?_
      intro h
      have hl := (rankSorted_perm st.correctAnswers).length_eq
      rw [h] at hl
      exact hne_c (List.length_eq_zero.mp hl.symm)
    | DAG =>
      rw [hgm] at hsolve
      exact grade_self_dag cfg st.correctAnswers stored hgm hsolve hI3 hI5 hI6
        huuid_c hne_c

/-- C1 (amended), witness: a RANKING question with two blocks declared in
descending rank order.  The declared order self-grades below 1, so prepare
stores `solve_problem`'s rank-sorted replacement, and that stored list grades
to a stored score of exactly 1. -/
theorem c1_amended_witness :
    prepareCore
        ⟨GradingMethodType.RANKING, false, FeedbackType.NONE, 1,
          PartialCreditType.NONE⟩
        [PrepChild.answer ⟨true, none, "B", 2, none, "tB", [], "uB"⟩,
         PrepChild.answer ⟨true, none, "A", 1, none, "tA", [], "uA"⟩] =
      Except.ok [⟨"A", none, 1, "tA", none, [], none, none, "uA"⟩,
        ⟨"B", none, 2, "tB", none, [], none, none, "uB"⟩] ∧
    ∃ out, grade
        ⟨GradingMethodType.RANKING, false, FeedbackType.NONE, 1,
          PartialCreditType.NONE⟩
        ([⟨"A", none, 1, "tA", none, [], none, none, "uA"⟩,
          (⟨"B", none, 2, "tB", none, [], none, none, "uB"⟩ : AnswerData)].map
          toSubEntry)
        [⟨"A", none, 1, "tA", none, [], none, none, "uA"⟩,
         ⟨"B", none, 2, "tB", none, [], none, none, "uB"⟩] = Except.ok out ∧
      out.result.score = 1 :=
  ⟨by with_unfolding_all decide,
    c1_amended
      ⟨GradingMethodType.RANKING, false, FeedbackType.NONE, 1,
        PartialCreditType.NONE⟩
      [PrepChild.answer ⟨true, none, "B", 2, none, "tB", [], "uB"⟩,
       PrepChild.answer ⟨true, none, "A", 1, none, "tA", [], "uA"⟩]
      [⟨"A", none, 1, "tA", none, [], none, none, "uA"⟩,
       ⟨"B", none, 2, "tB", none, [], none, none, "uB"⟩]
      (by with_unfolding_all decide) (by decide) (by decide)⟩

end OrderBlocks
